import Mathlib

/-!
# A shallow embedding of the kingpin command-line parser

This file embeds the grammar model, tokenizer, recursive-descent matcher and
execution pipeline of the kingpin command-line library (src/app.go, src/flags.go,
src/args.go, src/cmd.go) and proves properties of the embedded code.

Conventions:
* Go errors are represented by the structured type `Err`; each constructor
  corresponds to one `fmt.Errorf` site and carries the same data that the Go
  format string interpolates.
* Value sinks (values.go is not part of the sources) are modelled from the
  spec as a capability set: a kind that determines `is-boolean`,
  remainder-cumulativity and string acceptance, plus an append-only assignment
  log (`Sinks`) replacing in-place mutation.
* Loops are modelled with explicit fuel; `none` means the fuel ran out.
  Sufficiency theorems show that `tokens.length + 1` fuel always suffices,
  which is the termination argument for the Go loops.
-/

namespace Kingpin

/-- Structured parse/build errors.  Each constructor mirrors one `fmt.Errorf`
call site in the Go sources and carries the interpolated data. -/
inductive Err where
  /-- flags.go:71 `unknown long flag '%s'` (also flags.go:91 for a `no-`
  inversion of a non-boolean flag); carries the token as typed. -/
  | unknownLongFlag (tok : String)
  /-- flags.go:76 `unknown short flag '%s'` -/
  | unknownShortFlag (tok : String)
  /-- flags.go:95 `expected argument for flag '%s'` -/
  | expectedFlagArg (tok : String)
  /-- args.go:37 `'%s' is required` -/
  | argIsRequired (name : String)
  /-- args.go:50 `expected positional arguments <%s>` -/
  | expectedPositionals (name : String)
  /-- args.go:153 `expected positional argument <%s>` -/
  | expectedPositional (name : String)
  /-- args.go:64 `invalid default value '%s' for argument '%s'` -/
  | invalidArgDefault (v name : String)
  /-- cmd.go:60 `expected command but got '%s'` -/
  | expectedCommand (tok : String)
  /-- cmd.go:64 `no such command '%s'` -/
  | noSuchCommand (tok : String)
  /-- app.go:263 / app.go:274 `unexpected %s` (matcher progress errors) -/
  | unexpected (tok : String)
  /-- app.go:113 `unexpected argument '%s'` (leftover input after matching) -/
  | unexpectedArgument (tok : String)
  /-- app.go:332 `required flag --%s not provided` -/
  | requiredFlagNotProvided (name : String)
  /-- app.go:346 `required argument '%s' not provided` -/
  | requiredArgNotProvided (name : String)
  /-- app.go:387 `must select a subcommand of '%s'` -/
  | mustSelectSubcommand (name : String)
  /-- app.go:189 / cmd.go:137 `can't mix Arg()s with Command()s` -/
  | mixArgsAndCommands
  /-- flags.go:143 `required flag '--%s' with default value that will never be used` -/
  | requiredFlagWithDefault (name : String)
  /-- args.go:142 `required argument '%s' with unusable default value` -/
  | requiredArgWithDefault (name : String)
  /-- args.go:78 `Args() can't be followed by another argument '%s'` -/
  | argsNotLast (name : String)
  /-- args.go:84 `duplicate argument '%s'` -/
  | duplicateArgument (name : String)
  /-- args.go:88 `required arguments found after non-required` -/
  | requiredAfterOptional
  /-- cmd.go:43 `duplicate command '%s'` -/
  | duplicateCommand (name : String)
  /-- app.go:223 `duplicate short flag -%c` -/
  | duplicateShortFlag (c : Char)
  /-- app.go:227 `duplicate long flag --%s` -/
  | duplicateLongFlag (name : String)
  /-- a sink's string-to-typed conversion failure (the error returned by
  `value.Set`), carrying the offending string. -/
  | conversionFailed (v : String)
  /-- the error returned by a failing validator callback. -/
  | validatorFailed (msg : String)
  /-- the error returned by a failing action/dispatch callback. -/
  | actionFailed (msg : String)
  /-- marker for fuel exhaustion of the fueled loop models; the sufficiency
  theorems show the top-level entry point never produces it. -/
  | outOfFuel
  deriving DecidableEq, Repr

/-! ## Value sinks (modelled from the spec)

`Modelled from the spec:` values.go is not among the sources.  Spec section 9
describes value sinks as a capability set (parse-from-string, is-boolean) with
one implementation per type, and section 3 derives boolean-ness and
remainder-cumulativity from the sink type.  We model the sink type as a kind
and sink mutation as an append-only assignment log. -/

/-- The kind of a value sink: boolean, single string, cumulative string list
(remainder-consuming), or integer. -/
inductive VKind where
  | boolK
  | stringK
  | stringsK
  | intK
  deriving DecidableEq, Repr

/-- Whether a sink of this kind accepts a given string (`value.Set` succeeds). -/
def VKind.accepts : VKind → String → Bool
  | .boolK, v => v == "true" || v == "false" || v == "1" || v == "0"
  | .stringK, _ => true
  | .stringsK, _ => true
  | .intK, v => decide (v ≠ "") && v.toList.all Char.isDigit

/-- `IsBoolFlag()` on the sink. -/
def VKind.isBool : VKind → Bool
  | .boolK => true
  | _ => false

/-- `remainderArg.IsCumulative()` on the sink. -/
def VKind.isCumulative : VKind → Bool
  | .stringsK => true
  | _ => false

/-- The assignment log of all value sinks: each `value.Set(v)` on the sink
with identifier `id` appends `(id, v)`. -/
abbrev Sinks := List (Nat × String)

/-- `value.Set` for sink `id` of kind `k`: `none` is a conversion failure. -/
def sinkSet (σ : Sinks) (id : Nat) (k : VKind) (v : String) : Option Sinks :=
  if k.accepts v then some (σ ++ [(id, v)]) else none

/-! ## Grammar model (flags.go, args.go, cmd.go declarations) -/

/-- A flag declaration (`FlagClause` + its `FlagModel`, flags.go:120-135).
`dispatch` models the optional `Action` callback by its result (`none` inner
value meaning the callback returns nil). -/
structure FlagClause where
  id : Nat
  name : String
  help : String
  shorthand : Option Char
  required : Bool
  defaultValue : String
  envar : String
  kind : VKind
  dispatch : Option (Option String)
  deriving DecidableEq, Repr

/-- flags.go:137-139 `needsValue`. -/
def FlagClause.needsValue (f : FlagClause) : Bool :=
  f.required && f.defaultValue == ""

/-- An argument declaration (`ArgClause` + its `ArgModel`, args.go:100-114). -/
structure ArgClause where
  id : Nat
  name : String
  help : String
  required : Bool
  defaultValue : String
  kind : VKind
  dispatch : Option (Option String)
  deriving DecidableEq, Repr

/-- args.go:116-121 `consumesRemainder`. -/
def ArgClause.consumesRemainder (a : ArgClause) : Bool :=
  a.kind.isCumulative

/-- A command declaration (`CmdClause`, cmd.go:83-104): name, own flag group,
own argument list, child commands, optional validator and optional `Action`
callback, both modelled by their results. -/
inductive Cmd where
  | mk (id : Nat) (name : String) (flags : List FlagClause) (args : List ArgClause)
      (commands : List Cmd) (validator : Option (Option String))
      (action : Option (Option String)) : Cmd

def Cmd.id : Cmd → Nat
  | .mk i _ _ _ _ _ _ => i

def Cmd.name : Cmd → String
  | .mk _ n _ _ _ _ _ => n

def Cmd.flags : Cmd → List FlagClause
  | .mk _ _ fs _ _ _ _ => fs

def Cmd.args : Cmd → List ArgClause
  | .mk _ _ _ as _ _ _ => as

def Cmd.commands : Cmd → List Cmd
  | .mk _ _ _ _ cs _ _ => cs

def Cmd.validator : Cmd → Option (Option String)
  | .mk _ _ _ _ _ v _ => v

def Cmd.action : Cmd → Option (Option String)
  | .mk _ _ _ _ _ _ a => a

/-- The application (`Application`, app.go:46-56): root flag group, root
argument group, top-level commands, optional validator and root action, both
modelled by their results.  `terminate` is modelled as a distinguished parse
outcome rather than a callback. -/
structure App where
  name : String
  help : String
  flags : List FlagClause
  args : List ArgClause
  commands : List Cmd
  validator : Option (Option String)
  action : Option (Option String)

/-- The synthetic `help` flag registered by `New` (app.go:68). -/
def helpFlag : FlagClause :=
  { id := 0, name := "help", help := "Show help.", shorthand := none,
    required := false, defaultValue := "", envar := "", kind := .boolK,
    dispatch := none }

/-- `New` (app.go:59-70): a fresh application with only the `help` flag. -/
def newApp (name help : String) : App :=
  { name := name, help := help, flags := [helpFlag], args := [], commands := [],
    validator := none, action := none }

/-- Go-map lookup over a registration-ordered list: the most recently
registered entry with the given long name wins (`flagGroup.long`). -/
def lookupLong (l : List FlagClause) (n : String) : Option FlagClause :=
  l.reverse.find? (fun f => f.name == n)

/-- Go-map lookup by short name (`flagGroup.short`, populated from the
shorthand fields by `flagGroup.init`). -/
def lookupShort (l : List FlagClause) (c : String) : Option FlagClause :=
  l.reverse.find? (fun f => match f.shorthand with
    | some ch => String.mk [ch] == c
    | none => false)

/-- Go-map lookup of a command by name (`cmdGroup.commands`). -/
def cmdLookup (l : List Cmd) (n : String) : Option Cmd :=
  l.reverse.find? (fun c => c.name == n)

/-! ## Tokenizer and parse context (modelled from the spec)

`Modelled from the spec:` parsers.go (Token, tokenize, ParseContext) is not
among the sources.  Spec section 4.1 gives the tokenizer contract: `--name`
(optionally `--name=value`, the value inlined as an already-consumed argument
token), `-x` with clustering `-abc` = `-a -b -c`, everything else positional,
and a terminating end-of-line sentinel with idempotent peek.  Each token
carries its position so that the matcher's "token has not moved" progress
check (`Token.Equal`) can compare identity rather than text. -/

/-- Token classification. -/
inductive TokTy where
  | long
  | short
  | arg
  | eol
  deriving DecidableEq, Repr

/-- A classified token: position in the stream, kind, and text. -/
structure Token where
  idx : Nat
  ty : TokTy
  val : String
  deriving DecidableEq, Repr

/-- `Token.String()`: the token as typed on the command line. -/
def Token.str (t : Token) : String :=
  match t.ty with
  | .long => "--" ++ t.val
  | .short => "-" ++ t.val
  | .arg => t.val
  | .eol => "<EOL>"

/-- `Token.Equal`: token identity (the progress check "token has not moved"). -/
def Token.equal (a b : Token) : Bool :=
  a.idx == b.idx

/-- Split a character list at the first `=`, if any (the inline-value split
`--name=value`). -/
def splitEq : List Char → List Char × Option (List Char)
  | [] => ([], none)
  | c :: rest =>
    if c = '=' then ([], some rest)
    else
      let r := splitEq rest
      (c :: r.1, r.2)

/-- Lexical classification of one raw argument into token kinds and texts.
Limitation: a clustered short group `-abc` is split into one short token per
character, so an inline short-flag value (`-x5` assigning `5` to a
non-boolean `-x`) is not modelled; no theorem below concerns that form. -/
def classifyRaw (s : String) : List (TokTy × String) :=
  match s.toList with
  | '-' :: '-' :: rest =>
    match splitEq rest with
    | (n, none) => [(.long, String.mk n)]
    | (n, some v) => [(.long, String.mk n), (.arg, String.mk v)]
  | ['-'] => [(.arg, s)]
  | '-' :: rest => rest.map (fun c => (.short, String.mk [c]))
  | _ => [(.arg, s)]

/-- A parse element: which declaration matched and the literal consumed
(`ParseElement`; commands carry no value). -/
inductive Elem where
  | flagElem (f : FlagClause) (v : String)
  | argElem (a : ArgClause) (v : String)
  | cmdElem (c : Cmd)

/-- The mutable parse accumulator (`ParseContext`): remaining token stream,
matched elements in consumption order, currently visible flag scope, merged
argument declarations, the selected command name, and the sink assignment
log (sinks are written during matching only by argument defaults). -/
structure Ctx where
  tokens : List Token
  elements : List Elem
  flags : List FlagClause
  arguments : List ArgClause
  selectedCommand : String
  sinks : Sinks

/-- The end-of-line sentinel used when peeking past the end. -/
def eolToken : Token := { idx := 0, ty := .eol, val := "" }

/-- `ParseContext.Peek`: idempotent, yields the sentinel past the end. -/
def Ctx.peek (c : Ctx) : Token :=
  c.tokens.headD eolToken

/-- The token stream after one consumption: consuming past the last token
(the EOL sentinel) yields EOL forever. -/
def nextTokens : List Token → List Token
  | [] => []
  | t :: rest => if t.ty = .eol then t :: rest else rest

/-- `ParseContext.Next`: consuming past the last token yields EOL forever. -/
def Ctx.next (c : Ctx) : Ctx :=
  { c with tokens := nextTokens c.tokens }

/-- `ParseContext.EOL`. -/
def Ctx.EOL (c : Ctx) : Bool :=
  c.peek.ty == .eol

/-- `ParseContext.mergeFlags`: the scope's flags become visible (Go map
assignment: a later merge wins on lookup). -/
def Ctx.mergeFlags (c : Ctx) (fs : List FlagClause) : Ctx :=
  { c with flags := c.flags ++ fs }

/-- `ParseContext.mergeArgs`. -/
def Ctx.mergeArgs (c : Ctx) (as : List ArgClause) : Ctx :=
  { c with arguments := c.arguments ++ as }

/-- `ParseContext.matchedFlag`. -/
def Ctx.matchedFlag (c : Ctx) (f : FlagClause) (v : String) : Ctx :=
  { c with elements := c.elements ++ [.flagElem f v] }

/-- `ParseContext.matchedArg`. -/
def Ctx.matchedArg (c : Ctx) (a : ArgClause) (v : String) : Ctx :=
  { c with elements := c.elements ++ [.argElem a v] }

/-- `ParseContext.matchedCmd`. -/
def Ctx.matchedCmd (c : Ctx) (cmd : Cmd) : Ctx :=
  { c with elements := c.elements ++ [.cmdElem cmd] }

/-- `tokenize(args)` (app.go:90): a fresh context holding the classified
token stream terminated by the EOL sentinel. -/
def tokenize (args : List String) : Ctx :=
  let raw := args.flatMap classifyRaw
  let toks := (raw.enum.map fun p => { idx := p.1, ty := p.2.1, val := p.2.2 : Token })
  { tokens := toks ++ [{ idx := raw.length, ty := .eol, val := "" }],
    elements := [], flags := [], arguments := [], selectedCommand := "", sinks := [] }

/-! ## Flag matching (flags.go:46-108 `flagGroup.parse`)

The Go loop consumes consecutive flag tokens against the visible flag scope.
The fueled model returns the context as mutated so far together with an
optional error (the Go function mutates the context in place even on the
error paths). -/

/-- `strings.HasPrefix(name, "no-")` (flags.go:65), kernel-computable. -/
def hasNoPre (s : String) : Bool :=
  match s.toList with
  | 'n' :: 'o' :: '-' :: _ => true
  | _ => false

/-- `name[3:]` stripping the `no-` prefix (flags.go:66). -/
def stripNoPre (s : String) : String :=
  String.mk (s.toList.drop 3)

/-- Resolve the flag token against the visible scope: flags.go:63-78.
Returns the flag and whether a boolean inversion (`no-` prefix) was typed. -/
def resolveFlag (flags : List FlagClause) (token : Token) : Except Err (FlagClause × Bool) :=
  if token.ty = .long then
    if hasNoPre token.val then
      match lookupLong flags (stripNoPre token.val) with
      | some f => .ok (f, true)
      | none => .error (.unknownLongFlag token.str)
    else
      match lookupLong flags token.val with
      | some f => .ok (f, false)
      | none => .error (.unknownLongFlag token.str)
  else
    match lookupShort flags token.val with
    | some f => .ok (f, false)
    | none => .error (.unknownShortFlag token.str)

/-- One iteration of the `flagGroup.parse` loop body for a flag token
(flags.go:56-101), after the flag token has been peeked.  Returns the new
context and `none`, or the context as mutated so far and an error. -/
def flagStep (ctx : Ctx) (token : Token) : Ctx × Option Err :=
  match resolveFlag ctx.flags token with
  | .error e => (ctx, some e)
  | .ok (flag, invert) =>
    let ctx1 := ctx.next
    if flag.kind.isBool then
      (ctx1.matchedFlag flag (if invert then "false" else "true"), none)
    else if invert then
      (ctx1, some (.unknownLongFlag token.str))
    else
      let tok2 := ctx1.peek
      if tok2.ty = .arg then
        ((ctx1.next).matchedFlag flag tok2.val, none)
      else
        (ctx1, some (.expectedFlagArg token.str))

/-- `flagGroup.parse` (flags.go:46-108): consume consecutive flag tokens. -/
def flagGroupParse : Nat → Ctx → Option (Ctx × Option Err)
  | 0, _ => none
  | fuel + 1, ctx =>
    let token := ctx.peek
    match token.ty with
    | .eol => some (ctx, none)
    | .arg => some (ctx, none)
    | _ =>
      match flagStep ctx token with
      | (ctx1, some e) => some (ctx1, some e)
      | (ctx1, none) => flagGroupParse fuel ctx1

/-! ## Positional argument matching (args.go:28-70 `argGroup.parse`) -/

/-- The `argGroup.parse` loop (args.go:32-57).  State: remaining declarations
(the suffix of `a.args` from index `i`), the previous iteration's peeked token
(`last`), and the remainder-consumption count (`consumed`).  Returns the
mutated context, the declarations left for the defaults pass, and an optional
error. -/
def argGroupLoop : Nat → List ArgClause → Option Token → Nat → Ctx →
    Option (Ctx × List ArgClause × Option Err)
  | 0, _, _, _, _ => none
  | _ + 1, [], _, _, ctx => some (ctx, [], none)
  | fuel + 1, arg :: restArgs, last, consumed, ctx =>
    let token := ctx.peek
    if token.ty = .eol then
      if consumed = 0 && arg.required then
        some (ctx, arg :: restArgs, some (.argIsRequired arg.name))
      else
        some (ctx, arg :: restArgs, none)
    else if token.ty ≠ .arg then
      some (ctx, arg :: restArgs, some (.expectedPositional arg.name))
    else
      let ctx1 := (ctx.matchedArg arg token.val).next
      if arg.consumesRemainder then
        if (match last with | some l => l.equal ctx1.peek | none => false) then
          some (ctx1, arg :: restArgs, some (.expectedPositionals arg.name))
        else
          argGroupLoop fuel (arg :: restArgs) (some token) (consumed + 1) ctx1
      else
        argGroupLoop fuel restArgs (some token) consumed ctx1

/-- The trailing defaults pass of `argGroup.parse` (args.go:59-68): assign
declared defaults of the unconsumed arguments into their sinks. -/
def argDefaults : List ArgClause → Ctx → Ctx × Option Err
  | [], ctx => (ctx, none)
  | arg :: rest, ctx =>
    if arg.defaultValue ≠ "" then
      match sinkSet ctx.sinks arg.id arg.kind arg.defaultValue with
      | some σ => argDefaults rest { ctx with sinks := σ }
      | none => (ctx, some (.invalidArgDefault arg.defaultValue arg.name))
    else
      argDefaults rest ctx

/-- `argGroup.parse` (args.go:28-70): the matching loop followed, on
non-error exits, by the defaults pass over the remaining declarations. -/
def argGroupParse (fuel : Nat) (args : List ArgClause) (ctx : Ctx) :
    Option (Ctx × Option Err) :=
  match argGroupLoop fuel args none 0 ctx with
  | none => none
  | some (ctx1, _, some e) => some (ctx1, some e)
  | some (ctx1, remaining, none) => some (argDefaults remaining ctx1)

/-! ## Command matching (cmd.go:54-73 `cmdGroup.parse`, cmd.go:149-167
`CmdClause.parse`)

The fuel bounds the command-descent depth; every descent consumes the command
name token first, so `tokens.length + 1` fuel always suffices (proved below).
The inner flag/argument loops run with their own locally sufficient fuel.
`CmdClause.parse` deliberately reproduces the source's behaviour of
overwriting the inner error with the result of the trailing
`context.flags.parse` call (cmd.go:162). -/

/-- `cmdGroup.parse` (cmd.go:54-73) with the body of `CmdClause.parse`
(cmd.go:149-167) inlined at its single call site, so that the recursion is
structural in the descent fuel.  `cmdParse` below restates the inlined body;
`cmdGroupParse_succ_eq` proves the two agree. -/
def cmdGroupParse : Nat → List Cmd → Ctx → Option (Ctx × List String × Option Err)
  | 0, _, _ => none
  | fuel + 1, cmds, ctx =>
    let token := ctx.peek
    if token.ty = .eol then some (ctx, [], none)
    else if token.ty ≠ .arg then some (ctx, [], some (.expectedCommand token.str))
    else
      match cmdLookup cmds token.val with
      | none => some (ctx, [], some (.noSuchCommand token.str))
      | some cmd =>
        let ctx0 := { ctx.next with selectedCommand := cmd.name }
        let ctxA := (ctx0.mergeFlags cmd.flags).matchedCmd cmd
        let inner : Option (Ctx × List String × Option Err) :=
          match flagGroupParse (ctxA.tokens.length + 1) ctxA with
          | none => none
          | some (ctx1, some e) => some (ctx1, [], some e)
          | some (ctx1, none) =>
            let step2 : Option (Ctx × List String × Option Err) :=
              if !cmd.commands.isEmpty then
                cmdGroupParse fuel cmd.commands ctx1
              else if !cmd.args.isEmpty then
                match argGroupParse (ctx1.tokens.length + 1) cmd.args
                    (ctx1.mergeArgs cmd.args) with
                | none => none
                | some (ctx2, e) => some (ctx2, [], e)
              else some (ctx1, [], none)
            match step2 with
            | none => none
            | some (ctx2, sel, _innerErr) =>
              match flagGroupParse (ctx2.tokens.length + 1) ctx2 with
              | none => none
              | some (ctx3, some e) => some (ctx3, [], some e)
              | some (ctx3, none) => some (ctx3, sel, none)
        match inner with
        | none => none
        | some (ctx2, sel, some e) => some (ctx2, sel, some e)
        | some (ctx2, sel, none) => some (ctx2, token.val :: sel, none)

/-- `CmdClause.parse` (cmd.go:149-167), called when the command has already
been selected.  The trailing `context.flags.parse` call deliberately
reproduces the source's overwriting of the inner error (cmd.go:162). -/
def cmdParse (fuel : Nat) (c : Cmd) (ctx : Ctx) :
    Option (Ctx × List String × Option Err) :=
  let ctxA := (ctx.mergeFlags c.flags).matchedCmd c
  match flagGroupParse (ctxA.tokens.length + 1) ctxA with
  | none => none
  | some (ctx1, some e) => some (ctx1, [], some e)
  | some (ctx1, none) =>
    let step2 : Option (Ctx × List String × Option Err) :=
      if !c.commands.isEmpty then
        cmdGroupParse fuel c.commands ctx1
      else if !c.args.isEmpty then
        match argGroupParse (ctx1.tokens.length + 1) c.args (ctx1.mergeArgs c.args) with
        | none => none
        | some (ctx2, e) => some (ctx2, [], e)
      else some (ctx1, [], none)
    match step2 with
    | none => none
    | some (ctx2, sel, _innerErr) =>
      match flagGroupParse (ctx2.tokens.length + 1) ctx2 with
      | none => none
      | some (ctx3, some e) => some (ctx3, [], some e)
      | some (ctx3, none) => some (ctx3, sel, none)

/-- The inlined body of `cmdGroupParse` is exactly `cmdParse` followed by the
prepending of the matched command name (cmd.go:66-72). -/
theorem cmdGroupParse_succ_eq (fuel : Nat) (cmds : List Cmd) (ctx : Ctx) :
    cmdGroupParse (fuel + 1) cmds ctx =
      (let token := ctx.peek
       if token.ty = .eol then some (ctx, [], none)
       else if token.ty ≠ .arg then some (ctx, [], some (.expectedCommand token.str))
       else
         match cmdLookup cmds token.val with
         | none => some (ctx, [], some (.noSuchCommand token.str))
         | some cmd =>
           match cmdParse fuel cmd { ctx.next with selectedCommand := cmd.name } with
           | none => none
           | some (ctx2, sel, some e) => some (ctx2, sel, some e)
           | some (ctx2, sel, none) => some (ctx2, token.val :: sel, none)) := by
  rw [cmdGroupParse]
  dsimp only
  by_cases h1 : ctx.peek.ty = TokTy.eol
  · simp [h1]
  · by_cases h2 : ctx.peek.ty = TokTy.arg
    · simp only [h1, if_false, h2, ne_eq, not_true_eq_false, ite_false]
      cases cmdLookup cmds ctx.peek.val with
      | none => rfl
      | some cmd => rfl
    · simp [h1, h2]

/-! ## The per-scope matcher loop (app.go:241-281 `parsePositional`,
`parseNode`) -/

/-- `parsePositional` (app.go:241-249): positional tokens go to the command
set if one exists, else to the argument list. -/
def parsePositional (fuel : Nat) (cmds : List Cmd) (args : List ArgClause)
    (ctx : Ctx) : Option (Ctx × List String × Option Err) :=
  if !cmds.isEmpty then cmdGroupParse fuel cmds ctx
  else if !args.isEmpty then
    match argGroupParse (ctx.tokens.length + 1) args (ctx.mergeArgs args) with
    | none => none
    | some (ctx1, e) => some (ctx1, [], e)
  else some (ctx, [], none)

/-- The statement after the `parseNode` loop (app.go:277-279): one last
`parsePositional` if no positional was seen and the next token is positional
(this overwrites both `selected` and `err`). -/
def parseFinal (cmds : List Cmd) (args : List ArgClause) (seenArg : Bool)
    (selected : List String) (e : Option Err) (ctx : Ctx) :
    Option (Ctx × List String × Option Err) :=
  if !seenArg && ctx.peek.ty == .arg then
    parsePositional (ctx.tokens.length + 1) cmds args ctx
  else some (ctx, selected, e)

/-- The `parseNode` loop (app.go:254-276).  Each iteration handles one
token-kind switch, then the progress check ("Token has not moved; nothing
matched", app.go:272-275) and either exits the loop — running the trailing
`parseFinal` — or iterates. -/
def parseNodeLoop (cmds : List Cmd) (args : List ArgClause) :
    Nat → Ctx → Bool → List String → Option (Ctx × List String × Option Err)
  | 0, _, _, _ => none
  | fuel + 1, ctx, seenArg, selected =>
    if ctx.EOL then parseFinal cmds args seenArg selected none ctx
    else
      let token := ctx.peek
      match token.ty with
      | .long | .short =>
        match flagGroupParse (ctx.tokens.length + 1) ctx with
        | none => none
        | some (ctx1, e) =>
          if !ctx1.EOL && token.equal ctx1.peek then
            some (ctx1, [], some (.unexpected token.str))
          else
            match e with
            | some err => parseFinal cmds args seenArg selected (some err) ctx1
            | none => parseNodeLoop cmds args fuel ctx1 seenArg selected
      | .arg =>
        if seenArg then some (ctx, [], some (.unexpected token.str))
        else
          match parsePositional (ctx.tokens.length + 1) cmds args ctx with
          | none => none
          | some (ctx1, sel1, e) =>
            if !ctx1.EOL && token.equal ctx1.peek then
              some (ctx1, [], some (.unexpected token.str))
            else
              match e with
              | some err => parseFinal cmds args true sel1 (some err) ctx1
              | none => parseNodeLoop cmds args fuel ctx1 true sel1
      | .eol => parseFinal cmds args seenArg selected none ctx

/-- `parseNode` (app.go:251-281): merge the scope's flags, then run the loop. -/
def parseNode (fuel : Nat) (flags : List FlagClause) (args : List ArgClause)
    (cmds : List Cmd) (ctx : Ctx) : Option (Ctx × List String × Option Err) :=
  parseNodeLoop cmds args fuel (ctx.mergeFlags flags) false []

/-! ## The build/validation pass (init) -/

/-- `FlagClause.init` (flags.go:141-154): reject required+default, then
capture an environment-derived default.  `env` maps a variable name to its
value, `""` meaning unset (as `os.Getenv` reports). -/
def flagInit (env : String → String) (f : FlagClause) : Except Err FlagClause :=
  if f.required && f.defaultValue ≠ "" then .error (.requiredFlagWithDefault f.name)
  else if f.envar ≠ "" && env f.envar ≠ "" then .ok { f with defaultValue := env f.envar }
  else .ok f

/-- `flagGroup.init` (flags.go:34-44). -/
def flagGroupInit (env : String → String) : List FlagClause → Except Err (List FlagClause)
  | [] => .ok []
  | f :: rest =>
    match flagInit env f with
    | .error e => .error e
    | .ok f' => (flagGroupInit env rest).map (f' :: ·)

/-- `ArgClause.init` (args.go:140-148). -/
def argInit (a : ArgClause) : Except Err ArgClause :=
  if a.required && a.defaultValue ≠ "" then .error (.requiredArgWithDefault a.name)
  else .ok a

/-- The `argGroup.init` loop (args.go:72-98).  State: current index `i`, the
count of required arguments seen, whether the previous argument must be last,
and the names seen. -/
def argGroupInitAux : List ArgClause → Nat → Nat → Bool → List String →
    Except Err (List ArgClause)
  | [], _, _, _, _ => .ok []
  | arg :: rest, i, required, prevMustBeLast, seen =>
    if prevMustBeLast then .error (.argsNotLast arg.name)
    else
      let prevMustBeLast' := arg.consumesRemainder
      if seen.contains arg.name then .error (.duplicateArgument arg.name)
      else if arg.required && required ≠ i then .error .requiredAfterOptional
      else
        let required' := if arg.required then required + 1 else required
        match argInit arg with
        | .error e => .error e
        | .ok a' =>
          (argGroupInitAux rest (i + 1) required' prevMustBeLast' (arg.name :: seen)).map (a' :: ·)

/-- `argGroup.init` (args.go:72-98). -/
def argGroupInit (args : List ArgClause) : Except Err (List ArgClause) :=
  argGroupInitAux args 0 0 false []

mutual

/-- `CmdClause.init` (cmd.go:132-146). -/
def cmdInit (env : String → String) : Cmd → Except Err Cmd
  | .mk id name fs as cs val act =>
    match flagGroupInit env fs with
    | .error e => .error e
    | .ok fs' =>
      if !as.isEmpty && !cs.isEmpty then .error .mixArgsAndCommands
      else
        match argGroupInit as with
        | .error e => .error e
        | .ok as' =>
          match cmdGroupInitAux env cs [] with
          | .error e => .error e
          | .ok cs' => .ok (.mk id name fs' as' cs' val act)

/-- The `cmdGroup.init` loop (cmd.go:39-51): duplicate sibling command names
are rejected, then each command is initialized. -/
def cmdGroupInitAux (env : String → String) : List Cmd → List String → Except Err (List Cmd)
  | [], _ => .ok []
  | c :: rest, seen =>
    if seen.contains c.name then .error (.duplicateCommand c.name)
    else
      match cmdInit env c with
      | .error e => .error e
      | .ok c' => (cmdGroupInitAux env rest (c.name :: seen)).map (c' :: ·)

end

/-- One flag of the current command checked against one ancestor flag group
(app.go:220-228). -/
def dupCheckFlag (group : List FlagClause) (f : FlagClause) : Option Err :=
  match f.shorthand with
  | some ch =>
    if (lookupShort group (String.mk [ch])).isSome then some (.duplicateShortFlag ch)
    else if (lookupLong group f.name).isSome then some (.duplicateLongFlag f.name)
    else none
  | none =>
    if (lookupLong group f.name).isSome then some (.duplicateLongFlag f.name)
    else none

/-- All flags of the current command checked against one ancestor group. -/
def dupCheckGroup (fs : List FlagClause) (group : List FlagClause) : Option Err :=
  match fs with
  | [] => none
  | f :: rest =>
    match dupCheckFlag group f with
    | some e => some e
    | none => dupCheckGroup rest group

/-- All flags of the current command checked against all ancestor groups
(the outer loop of app.go:219-230). -/
def dupCheckGroups (fs : List FlagClause) : List (List FlagClause) → Option Err
  | [] => none
  | g :: rest =>
    match dupCheckGroup fs g with
    | some e => some e
    | none => dupCheckGroups fs rest

mutual

/-- `checkDuplicateFlags` (app.go:216-239): recursively check a command's
flags against all ancestor scopes' flag groups. -/
def checkDupFlags : Cmd → List (List FlagClause) → Except Err Unit
  | .mk _ _ fs _ cs _ _, groups =>
    match dupCheckGroups fs groups with
    | some e => .error e
    | none => checkDupFlagsList cs (groups ++ [fs])

/-- The recursion of `checkDuplicateFlags` over subcommands (app.go:232-237). -/
def checkDupFlagsList : List Cmd → List (List FlagClause) → Except Err Unit
  | [], _ => .ok ()
  | c :: rest, groups =>
    match checkDupFlags c groups with
    | .error e => .error e
    | .ok _ => checkDupFlagsList rest groups

end

/-- The second, repeated command initialization of `Application.init`
(app.go:201-205 `for _, cmd := range a.commands { cmd.init() }`, running
after `cmdGroup.init` already initialized every command). -/
def cmdsReinit (env : String → String) : List Cmd → Except Err (List Cmd)
  | [] => .ok []
  | c :: rest =>
    match cmdInit env c with
    | .error e => .error e
    | .ok c' => (cmdsReinit env rest).map (c' :: ·)

/-- `Application.init` (app.go:184-214). -/
def appInit (env : String → String) (a : App) : Except Err App :=
  if !a.commands.isEmpty && !a.args.isEmpty then .error .mixArgsAndCommands
  else
    match flagGroupInit env a.flags with
    | .error e => .error e
    | .ok flags' =>
      match cmdGroupInitAux env a.commands [] with
      | .error e => .error e
      | .ok cmds1 =>
        match argGroupInit a.args with
        | .error e => .error e
        | .ok args' =>
          match cmdsReinit env cmds1 with
          | .error e => .error e
          | .ok cmds2 =>
            match checkDupFlagsList cmds2 [flags'] with
            | .error e => .error e
            | .ok _ => .ok { a with flags := flags', args := args', commands := cmds2 }

/-! ## Execution pipeline (app.go:288-439) -/

/-- Pipeline events, recording each sink assignment, validator invocation and
dispatch callback in execution order. -/
inductive Ev where
  | assign (id : Nat) (v : String)
  | cmdValidator (id : Nat)
  | rootValidator
  | rootAction
  | flagAction (id : Nat)
  | argAction (id : Nat)
  | cmdAction (id : Nat)
  deriving DecidableEq, Repr

/-- Whether some matched element references a flag of the given name
(the `flagElements` map of app.go:313-318). -/
def hasFlagElemNamed (elements : List Elem) (n : String) : Bool :=
  elements.any fun e => match e with
    | .flagElem f _ => f.name == n
    | _ => false

/-- Whether some matched element references an argument of the given name
(the `argElements` map of app.go:320-325). -/
def hasArgElemNamed (elements : List Elem) (n : String) : Bool :=
  elements.any fun e => match e with
    | .argElem a _ => a.name == n
    | _ => false

/-- The flag half of `setDefaults` (app.go:327-341): for each visible flag
without a matched element, error if it still needs a value, else assign its
non-empty default. -/
def setDefaultsFlags (elements : List Elem) : List FlagClause → Sinks →
    Sinks × List Ev × Option Err
  | [], σ => (σ, [], none)
  | f :: rest, σ =>
    if hasFlagElemNamed elements f.name then setDefaultsFlags elements rest σ
    else if f.needsValue then (σ, [], some (.requiredFlagNotProvided f.name))
    else if f.defaultValue ≠ "" then
      match sinkSet σ f.id f.kind f.defaultValue with
      | some σ' =>
        let r := setDefaultsFlags elements rest σ'
        (r.1, .assign f.id f.defaultValue :: r.2.1, r.2.2)
      | none => (σ, [], some (.conversionFailed f.defaultValue))
    else setDefaultsFlags elements rest σ

/-- The argument half of `setDefaults` (app.go:343-355). -/
def setDefaultsArgs (elements : List Elem) : List ArgClause → Sinks →
    Sinks × List Ev × Option Err
  | [], σ => (σ, [], none)
  | a :: rest, σ =>
    if hasArgElemNamed elements a.name then setDefaultsArgs elements rest σ
    else if a.required then (σ, [], some (.requiredArgNotProvided a.name))
    else if a.defaultValue ≠ "" then
      match sinkSet σ a.id a.kind a.defaultValue with
      | some σ' =>
        let r := setDefaultsArgs elements rest σ'
        (r.1, .assign a.id a.defaultValue :: r.2.1, r.2.2)
      | none => (σ, [], some (.conversionFailed a.defaultValue))
    else setDefaultsArgs elements rest σ

/-- `Application.setDefaults` (app.go:312-358), iterating the visible flag
scope then the merged argument declarations (Go map iteration is modelled as
registration order). -/
def setDefaults (ctx : Ctx) : Sinks × List Ev × Option Err :=
  let r1 := setDefaultsFlags ctx.elements ctx.flags ctx.sinks
  match r1.2.2 with
  | some e => (r1.1, r1.2.1, some e)
  | none =>
    let r2 := setDefaultsArgs ctx.elements ctx.arguments r1.1
    (r2.1, r1.2.1 ++ r2.2.1, r2.2.2)

/-- The element fold of `Application.setValues` (app.go:362-384).  Note that
the source invokes each matched command's validator here, interleaved with
the sink assignments.  Returns sinks, selected command names, events, the
last matched command and an optional error. -/
def setValuesAux : List Elem → Sinks → Option Cmd → List String →
    Sinks × List String × List Ev × Option Cmd × Option Err
  | [], σ, lastCmd, selected => (σ, selected, [], lastCmd, none)
  | .flagElem f v :: rest, σ, lastCmd, selected =>
    (match sinkSet σ f.id f.kind v with
     | some σ' =>
       let r := setValuesAux rest σ' lastCmd selected
       (r.1, r.2.1, .assign f.id v :: r.2.2.1, r.2.2.2)
     | none => (σ, selected, [], lastCmd, some (.conversionFailed v)))
  | .argElem a v :: rest, σ, lastCmd, selected =>
    (match sinkSet σ a.id a.kind v with
     | some σ' =>
       let r := setValuesAux rest σ' lastCmd selected
       (r.1, r.2.1, .assign a.id v :: r.2.2.1, r.2.2.2)
     | none => (σ, selected, [], lastCmd, some (.conversionFailed v)))
  | .cmdElem c :: rest, σ, _lastCmd, selected =>
    (match c.validator with
     | some (some msg) => (σ, selected, [.cmdValidator c.id], some c, some (.validatorFailed msg))
     | some none =>
       let r := setValuesAux rest σ (some c) (selected ++ [c.name])
       (r.1, r.2.1, .cmdValidator c.id :: r.2.2.1, r.2.2.2)
     | none => setValuesAux rest σ (some c) (selected ++ [c.name]))

/-- `Application.setValues` (app.go:360-391): the element fold followed by
the subcommand-required check (the source formats the full command path; the
model carries the command name). -/
def setValues (elements : List Elem) (σ : Sinks) :
    Sinks × List String × List Ev × Option Err :=
  let r := setValuesAux elements σ none []
  match r.2.2.2.2 with
  | some e => (r.1, r.2.1, r.2.2.1, some e)
  | none =>
    match r.2.2.2.1 with
    | some c =>
      if !c.commands.isEmpty then (r.1, [], r.2.2.1, some (.mustSelectSubcommand c.name))
      else (r.1, r.2.1, r.2.2.1, none)
    | none => (r.1, r.2.1, r.2.2.1, none)

/-- The element fold of `Application.applyValidators` (app.go:395-401). -/
def applyValidatorsAux : List Elem → List Ev × Option Err
  | [] => ([], none)
  | .cmdElem c :: rest =>
    (match c.validator with
     | some (some msg) => ([.cmdValidator c.id], some (.validatorFailed msg))
     | some none =>
       let r := applyValidatorsAux rest
       (.cmdValidator c.id :: r.1, r.2)
     | none => applyValidatorsAux rest)
  | .flagElem _ _ :: rest => applyValidatorsAux rest
  | .argElem _ _ :: rest => applyValidatorsAux rest

/-- `Application.applyValidators` (app.go:393-407): command validators in
element order, then the application validator. -/
def applyValidators (a : App) (elements : List Elem) : List Ev × Option Err :=
  let r := applyValidatorsAux elements
  match r.2 with
  | some e => (r.1, some e)
  | none =>
    match a.validator with
    | some (some msg) => (r.1 ++ [.rootValidator], some (.validatorFailed msg))
    | some none => (r.1 ++ [.rootValidator], none)
    | none => (r.1, none)

/-- The element fold of `Application.applyActions` (app.go:415-437). -/
def applyActionsAux : List Elem → List Ev × Option Err
  | [] => ([], none)
  | e :: rest =>
    let step : Option (Ev × Option String) :=
      match e with
      | .argElem a _ => a.dispatch.map (fun r => (.argAction a.id, r))
      | .cmdElem c => c.action.map (fun r => (.cmdAction c.id, r))
      | .flagElem f _ => f.dispatch.map (fun r => (.flagAction f.id, r))
    match step with
    | none => applyActionsAux rest
    | some (ev, some msg) => ([ev], some (.actionFailed msg))
    | some (ev, none) =>
      let r := applyActionsAux rest
      (ev :: r.1, r.2)

/-- `Application.applyActions` (app.go:409-439): the root action first, then
every matched element's dispatch callback in match order. -/
def applyActions (a : App) (elements : List Elem) : List Ev × Option Err :=
  match a.action with
  | some (some msg) => ([.rootAction], some (.actionFailed msg))
  | some none =>
    let r := applyActionsAux elements
    (.rootAction :: r.1, r.2)
  | none => applyActionsAux elements

/-- The outcome of the execution pipeline: the result (selected command
string or first error), the final sink log, and the event trace up to the
first failure. -/
structure ExecRes where
  res : Except Err String
  sinks : Sinks
  trace : List Ev

/-- `Application.execute` (app.go:288-310): defaults, value assignment,
validators, actions, fail-fast in that order. -/
def execute (a : App) (ctx : Ctx) : ExecRes :=
  let r1 := setDefaults ctx
  match r1.2.2 with
  | some e => ⟨.error e, r1.1, r1.2.1⟩
  | none =>
    let r2 := setValues ctx.elements r1.1
    match r2.2.2.2 with
    | some e => ⟨.error e, r2.1, r1.2.1 ++ r2.2.2.1⟩
    | none =>
      let r3 := applyValidators a ctx.elements
      match r3.2 with
      | some e => ⟨.error e, r2.1, r1.2.1 ++ r2.2.2.1 ++ r3.1⟩
      | none =>
        let r4 := applyActions a ctx.elements
        match r4.2 with
        | some e => ⟨.error e, r2.1, r1.2.1 ++ r2.2.2.1 ++ r3.1 ++ r4.1⟩
        | none => ⟨.ok (String.intercalate " " r2.2.1), r2.1, r1.2.1 ++ r2.2.2.1 ++ r3.1 ++ r4.1⟩

/-! ## Top-level parse (app.go:86-134 `ParseContext`, `Parse`, `maybeHelp`)

`Modelled from the spec:` the termination collaborator (`terminate`,
defaulting to `os.Exit`) is modelled as a distinguished outcome, as spec
section 9 recommends. -/

/-- The outcome of `Application.Parse`: the selected command string, an
error, or process termination with a status (help/usage paths). -/
inductive Outcome where
  | ok (command : String)
  | err (e : Err)
  | terminated (status : Nat)
  deriving DecidableEq, Repr

/-- `Application.hasHelp` (app.go:118-125). -/
def hasHelpRaw (args : List String) : Bool :=
  args.any (· == "--help")

/-- The test of `Application.maybeHelp` (app.go:127-134): some matched
element is a flag named `help`. -/
def isHelpElem : Elem → Bool
  | .flagElem f _ => f.name == "help"
  | _ => false

/-- `Application.ParseContext` (app.go:86-93): init, tokenize, and the root
`parseNode`, returning the initialized application and the parse context. -/
def matchPhase (env : String → String) (a : App) (args : List String) :
    Except Err (App × Ctx) :=
  match appInit env a with
  | .error e => .error e
  | .ok a' =>
    let ctx0 := tokenize args
    match parseNode (ctx0.tokens.length + 1) a'.flags a'.args a'.commands ctx0 with
    | none => .error .outOfFuel
    | some (_, _, some e) => .error e
    | some (ctx, _, none) => .ok (a', ctx)

/-- `Application.Parse` (app.go:101-116): on a parse error, terminate if the
raw input mentions `--help`; otherwise run `maybeHelp`, the leftover-token
check, and the execution pipeline. -/
def ParseApp (env : String → String) (a : App) (args : List String) : Outcome :=
  match matchPhase env a args with
  | .error e => if hasHelpRaw args then .terminated 1 else .err e
  | .ok (a', ctx) =>
    if ctx.elements.any isHelpElem then .terminated 1
    else if !ctx.EOL then .err (.unexpectedArgument ctx.peek.str)
    else
      match (execute a' ctx).res with
      | .ok s => .ok s
      | .error e => .err e

/-! ## Sample declarations

Concrete grammars used to instantiate the theorems below. -/

/-- A boolean flag with no constraints. -/
def boolFlag (i : Nat) (n : String) : FlagClause :=
  { id := i, name := n, help := "", shorthand := none, required := false,
    defaultValue := "", envar := "", kind := .boolK, dispatch := none }

/-- A string-valued flag with no constraints. -/
def strFlag (i : Nat) (n : String) : FlagClause :=
  { boolFlag i n with kind := .stringK }

/-- A string-valued positional argument. -/
def strArg (i : Nat) (n : String) (req : Bool) : ArgClause :=
  { id := i, name := n, help := "", required := req, defaultValue := "",
    kind := .stringK, dispatch := none }

/-- A remainder-consuming (cumulative string) positional argument. -/
def remArg (i : Nat) (n : String) : ArgClause :=
  { strArg i n false with kind := .stringsK }

/-- An empty environment (every variable unset). -/
def env0 : String → String := fun _ => ""

/-! ## C2: boolean long flags and `no-` inversion -/

/-- C2: for a declared boolean-sink long flag named `f`, one step of the flag
matching loop on `--f` records the value `true`, on `--no-f` records the
value `false`, and in both cases leaves the following token unconsumed (the
loop continues on a context whose token stream is exactly the rest); for a
non-boolean-sink flag, the `no-`-prefixed spelling is a hard error. -/
theorem c2_boolean_long_flags (ctx : Ctx) (fuel : Nat) (tok : Token)
    (rest : List Token) (fl : FlagClause)
    (htok : ctx.tokens = tok :: rest) (hty : tok.ty = .long) :
    (tok.val = fl.name → hasNoPre tok.val = false →
      lookupLong ctx.flags fl.name = some fl → fl.kind.isBool = true →
      flagGroupParse (fuel + 1) ctx =
        flagGroupParse fuel
          { ctx with tokens := rest, elements := ctx.elements ++ [.flagElem fl "true"] }) ∧
    (hasNoPre tok.val = true → stripNoPre tok.val = fl.name →
      lookupLong ctx.flags fl.name = some fl → fl.kind.isBool = true →
      flagGroupParse (fuel + 1) ctx =
        flagGroupParse fuel
          { ctx with tokens := rest, elements := ctx.elements ++ [.flagElem fl "false"] }) ∧
    (hasNoPre tok.val = true → stripNoPre tok.val = fl.name →
      lookupLong ctx.flags fl.name = some fl → fl.kind.isBool = false →
      flagGroupParse (fuel + 1) ctx =
        some ({ ctx with tokens := rest }, some (.unknownLongFlag tok.str))) := by
  have hne : tok.ty ≠ TokTy.eol := by rw [hty]; simp
  refine ⟨?_, ?_, ?_⟩
  · intro hval hno hlook hbool
    rw [hval] at hno
    simp [flagGroupParse, Ctx.peek, htok, hty, flagStep, resolveFlag, hno, hval, hlook,
      hbool, Ctx.next, nextTokens, Ctx.matchedFlag]
  · intro hno hdrop hlook hbool
    simp [flagGroupParse, Ctx.peek, htok, hty, flagStep, resolveFlag, hno, hdrop, hlook,
      hbool, Ctx.next, nextTokens, Ctx.matchedFlag]
  · intro hno hdrop hlook hbool
    simp [flagGroupParse, Ctx.peek, htok, hty, flagStep, resolveFlag, hno, hdrop, hlook,
      hbool, Ctx.next, nextTokens, Ctx.matchedFlag]

/-- Concrete context for the C2 witness: visible flags `f` (boolean) and `g`
(string-valued). -/
def c2ctx (toks : List Token) : Ctx :=
  { tokens := toks, elements := [], flags := [boolFlag 1 "f", strFlag 2 "g"],
    arguments := [], selectedCommand := "", sinks := [] }

/-- Witness for C2 at the concrete flags `--f`, `--no-f`, `--no-g`. -/
theorem c2_boolean_long_flags_witness :
    (flagGroupParse 2 (c2ctx [⟨0, .long, "f"⟩, ⟨1, .eol, ""⟩]) =
      flagGroupParse 1
        { c2ctx [⟨0, .long, "f"⟩, ⟨1, .eol, ""⟩] with
          tokens := [⟨1, .eol, ""⟩],
          elements := [.flagElem (boolFlag 1 "f") "true"] }) ∧
    (flagGroupParse 2 (c2ctx [⟨0, .long, "no-f"⟩, ⟨1, .eol, ""⟩]) =
      flagGroupParse 1
        { c2ctx [⟨0, .long, "no-f"⟩, ⟨1, .eol, ""⟩] with
          tokens := [⟨1, .eol, ""⟩],
          elements := [.flagElem (boolFlag 1 "f") "false"] }) ∧
    (flagGroupParse 2 (c2ctx [⟨0, .long, "no-g"⟩, ⟨1, .eol, ""⟩]) =
      some ({ c2ctx [⟨0, .long, "no-g"⟩, ⟨1, .eol, ""⟩] with tokens := [⟨1, .eol, ""⟩] },
        some (.unknownLongFlag "--no-g"))) := by
  refine ⟨?_, ?_, ?_⟩
  · exact (c2_boolean_long_flags _ 1 _ _ (boolFlag 1 "f") rfl rfl).1 rfl (by decide)
      (by decide) (by decide)
  · exact (c2_boolean_long_flags _ 1 _ _ (boolFlag 1 "f") rfl rfl).2.1 (by decide)
      (by decide) (by decide) (by decide)
  · exact (c2_boolean_long_flags (c2ctx [⟨0, .long, "no-g"⟩, ⟨1, .eol, ""⟩]) 1
      ⟨0, .long, "no-g"⟩ [⟨1, .eol, ""⟩] (strFlag 2 "g") rfl rfl).2.2 (by decide)
      (by decide) (by decide) (by decide)

/-! ## C3: a required positional followed by a remainder argument -/

/-- C3 (amended): for a scope declaring a positional argument followed by a
remainder-consuming argument, parsing the positional tokens
`req tail1 tail2 tail3` records `req` for the first argument and `tail1`,
`tail2`, `tail3` in order as separate matched elements sharing the remainder
declaration, stopping at end-of-line; if instead a flag token is reached
while the remainder argument is consuming, `argGroup.parse` fails with a hard
error naming the remainder argument. -/
theorem c3_remainder_after_required (ctx ctx2 : Ctx) (req rem : ArgClause)
    (v t1 t2 t3 w u1 : String) (fty : TokTy) (fv : String)
    (hreqd : req.required = true)
    (hreq : req.consumesRemainder = false) (hrem : rem.consumesRemainder = true)
    (hremdef : rem.defaultValue = "")
    (htok : ctx.tokens =
      [⟨0, .arg, v⟩, ⟨1, .arg, t1⟩, ⟨2, .arg, t2⟩, ⟨3, .arg, t3⟩, ⟨4, .eol, ""⟩])
    (htok2 : ctx2.tokens = [⟨0, .arg, w⟩, ⟨1, .arg, u1⟩, ⟨2, fty, fv⟩, ⟨3, .eol, ""⟩])
    (hfty : fty ≠ .arg) (hfty' : fty ≠ .eol) :
    argGroupParse 5 [req, rem] ctx =
      some ({ ctx with
              tokens := [⟨4, .eol, ""⟩],
              elements := ctx.elements ++
                [.argElem req v, .argElem rem t1, .argElem rem t2, .argElem rem t3] },
            none) ∧
    argGroupParse 5 [req, rem] ctx2 =
      some ({ ctx2 with
              tokens := [⟨2, fty, fv⟩, ⟨3, .eol, ""⟩],
              elements := ctx2.elements ++ [.argElem req w, .argElem rem u1] },
            some (.expectedPositional rem.name)) := by
  constructor
  · simp [argGroupParse, argGroupLoop, Ctx.peek, Ctx.next, nextTokens, Ctx.matchedArg,
      htok, hreq, hrem, Token.equal, argDefaults, hremdef]
  · simp [argGroupParse, argGroupLoop, Ctx.peek, Ctx.next, nextTokens, Ctx.matchedArg,
      htok2, hreq, hrem, Token.equal, argDefaults, hremdef, hfty, hfty']

/-- Concrete context for the C3 witness and counterexample. -/
def c3ctx (toks : List Token) : Ctx :=
  { tokens := toks, elements := [], flags := [], arguments := [],
    selectedCommand := "", sinks := [] }

/-- Witness for C3 at concrete input `r t1 t2 t3` (end-of-line stop) and
`r t1 --x` (hard error at a flag token). -/
theorem c3_remainder_after_required_witness :
    argGroupParse 5 [strArg 1 "req" true, remArg 2 "tail"]
        (c3ctx [⟨0, .arg, "r"⟩, ⟨1, .arg, "t1"⟩, ⟨2, .arg, "t2"⟩, ⟨3, .arg, "t3"⟩,
          ⟨4, .eol, ""⟩]) =
      some ({ c3ctx [⟨0, .arg, "r"⟩, ⟨1, .arg, "t1"⟩, ⟨2, .arg, "t2"⟩, ⟨3, .arg, "t3"⟩, ⟨4, .eol, ""⟩] with
              tokens := [⟨4, .eol, ""⟩],
              elements := [.argElem (strArg 1 "req" true) "r",
                .argElem (remArg 2 "tail") "t1", .argElem (remArg 2 "tail") "t2",
                .argElem (remArg 2 "tail") "t3"] },
            none) ∧
    argGroupParse 5 [strArg 1 "req" true, remArg 2 "tail"]
        (c3ctx [⟨0, .arg, "r"⟩, ⟨1, .arg, "t1"⟩, ⟨2, .long, "x"⟩, ⟨3, .eol, ""⟩]) =
      some ({ c3ctx [⟨0, .arg, "r"⟩, ⟨1, .arg, "t1"⟩, ⟨2, .long, "x"⟩, ⟨3, .eol, ""⟩] with
              tokens := [⟨2, .long, "x"⟩, ⟨3, .eol, ""⟩],
              elements := [.argElem (strArg 1 "req" true) "r",
                .argElem (remArg 2 "tail") "t1"] },
            some (.expectedPositional "tail")) :=
  c3_remainder_after_required
    (c3ctx [⟨0, .arg, "r"⟩, ⟨1, .arg, "t1"⟩, ⟨2, .arg, "t2"⟩, ⟨3, .arg, "t3"⟩, ⟨4, .eol, ""⟩])
    (c3ctx [⟨0, .arg, "r"⟩, ⟨1, .arg, "t1"⟩, ⟨2, .long, "x"⟩, ⟨3, .eol, ""⟩])
    (strArg 1 "req" true) (remArg 2 "tail") "r" "t1" "t2" "t3" "r" "t1" .long "x"
    rfl rfl rfl rfl rfl rfl (by decide) (by decide)

/-- Counterexample for C3 as stated: the original claim says consumption of
the remainder argument "stops" at a flag token, but on input `r t1 --x` the
matcher does not stop there with the tails recorded; it returns a hard error
instead of succeeding. -/
theorem c3_stop_at_flag_counterexample :
    (argGroupParse 5 [strArg 1 "req" true, remArg 2 "tail"]
        (c3ctx [⟨0, .arg, "r"⟩, ⟨1, .arg, "t1"⟩, ⟨2, .long, "x"⟩, ⟨3, .eol, ""⟩])).map
        (fun r => r.2) =
      some (some (.expectedPositional "tail")) := by
  rfl

/-! ## C7: required together with a default is a build-time error -/

/-- No flag or argument declared in this command or any of its descendants is
both required and equipped with a non-empty default. -/
inductive CmdReqDefFree : Cmd → Prop
  | intro (c : Cmd)
      (hf : ∀ f ∈ c.flags, ¬(f.required = true ∧ f.defaultValue ≠ ""))
      (ha : ∀ a ∈ c.args, ¬(a.required = true ∧ a.defaultValue ≠ ""))
      (hs : ∀ d ∈ c.commands, CmdReqDefFree d) : CmdReqDefFree c

theorem flagInit_ok_not_reqDef {env : String → String} {f f' : FlagClause}
    (h : flagInit env f = .ok f') : ¬(f.required = true ∧ f.defaultValue ≠ "") := by
  rintro ⟨h1, h2⟩
  rw [flagInit] at h
  simp [h1, h2] at h

theorem flagGroupInit_ok_forall {env : String → String} :
    ∀ {l l' : List FlagClause}, flagGroupInit env l = .ok l' →
      ∀ f ∈ l, ¬(f.required = true ∧ f.defaultValue ≠ "")
  | [], _, _, f, hf => by simp at hf
  | g :: rest, l', h, f, hf => by
    rw [flagGroupInit] at h
    cases hg : flagInit env g with
    | error e => rw [hg] at h; exact absurd h (by simp)
    | ok g' =>
      rw [hg] at h
      cases hrest : flagGroupInit env rest with
      | error e => rw [hrest] at h; exact absurd h (by simp [Except.map])
      | ok rest' =>
        rcases List.mem_cons.mp hf with rfl | hmem
        · exact flagInit_ok_not_reqDef hg
        · exact flagGroupInit_ok_forall hrest f hmem

theorem argInit_ok_not_reqDef {a a' : ArgClause} (h : argInit a = .ok a') :
    ¬(a.required = true ∧ a.defaultValue ≠ "") := by
  rintro ⟨h1, h2⟩
  rw [argInit] at h
  simp [h1, h2] at h

theorem argGroupInitAux_ok_argInit :
    ∀ (args : List ArgClause) (i r : Nat) (pm : Bool) (seen : List String)
      (l : List ArgClause), argGroupInitAux args i r pm seen = .ok l →
      ∀ a ∈ args, ∃ a', argInit a = .ok a'
  | [], _, _, _, _, _, _, a, ha => by simp at ha
  | arg :: rest, i, r, pm, seen, l, h, a, ha => by
    rw [argGroupInitAux] at h
    by_cases hpm : pm = true
    · rw [hpm] at h; exact absurd h (by simp)
    · rw [Bool.not_eq_true] at hpm
      rw [hpm] at h
      simp only [Bool.false_eq_true, if_false] at h
      by_cases hseen : seen.contains arg.name = true
      · rw [if_pos hseen] at h; exact absurd h (by simp)
      · rw [if_neg hseen] at h
        by_cases hri : (arg.required && decide (r ≠ i)) = true
        · rw [if_pos hri] at h; exact absurd h (by simp)
        · rw [if_neg hri] at h
          cases hinit : argInit arg with
          | error e => rw [hinit] at h; exact absurd h (by simp)
          | ok a0 =>
            rw [hinit] at h
            cases hrest : argGroupInitAux rest (i + 1)
                (if arg.required = true then r + 1 else r) arg.consumesRemainder
                (arg.name :: seen) with
            | error e => rw [hrest] at h; exact absurd h (by simp [Except.map])
            | ok rest' =>
              rcases List.mem_cons.mp ha with rfl | hmem
              · exact ⟨a0, hinit⟩
              · exact argGroupInitAux_ok_argInit rest _ _ _ _ _ hrest a hmem

theorem argGroupInit_ok_not_reqDef {args l : List ArgClause}
    (h : argGroupInit args = .ok l) :
    ∀ a ∈ args, ¬(a.required = true ∧ a.defaultValue ≠ "") := by
  intro a ha
  obtain ⟨a', ha'⟩ := argGroupInitAux_ok_argInit args 0 0 false [] l h a ha
  exact argInit_ok_not_reqDef ha'

theorem cmdGroupInitAux_ok_mem {env : String → String} :
    ∀ {l : List Cmd} {seen : List String} {l' : List Cmd},
      cmdGroupInitAux env l seen = .ok l' → ∀ c ∈ l, ∃ c', cmdInit env c = .ok c'
  | [], _, _, _, c, hc => by simp at hc
  | d :: rest, seen, l', h, c, hc => by
    rw [cmdGroupInitAux] at h
    by_cases hseen : seen.contains d.name = true
    · rw [if_pos hseen] at h; exact absurd h (by simp)
    · rw [if_neg hseen] at h
      cases hd : cmdInit env d with
      | error e => rw [hd] at h; exact absurd h (by simp)
      | ok d' =>
        rw [hd] at h
        cases hrest : cmdGroupInitAux env rest (d.name :: seen) with
        | error e => rw [hrest] at h; exact absurd h (by simp [Except.map])
        | ok rest' =>
          rcases List.mem_cons.mp hc with rfl | hmem
          · exact ⟨d', hd⟩
          · exact cmdGroupInitAux_ok_mem hrest c hmem

theorem cmdInit_ok_reqDefFree (env : String → String) :
    ∀ (n : Nat) (c : Cmd), sizeOf c ≤ n → ∀ c', cmdInit env c = .ok c' →
      CmdReqDefFree c := by
  intro n
  induction n with
  | zero =>
    intro c hle
    exfalso
    cases c
    simp at hle
  | succ n ih =>
    intro c hle c' h
    cases c with
    | mk ci cn fs as cs val act =>
      rw [cmdInit] at h
      cases hf : flagGroupInit env fs with
      | error e => rw [hf] at h; exact absurd h (by simp)
      | ok fs' =>
        rw [hf] at h
        dsimp only at h
        by_cases hmix : (!as.isEmpty && !cs.isEmpty) = true
        · rw [if_pos hmix] at h; exact absurd h (by simp)
        · rw [if_neg hmix] at h
          cases ha : argGroupInit as with
          | error e => rw [ha] at h; exact absurd h (by simp)
          | ok as' =>
            rw [ha] at h
            dsimp only at h
            cases hc : cmdGroupInitAux env cs [] with
            | error e => rw [hc] at h; exact absurd h (by simp)
            | ok cs' =>
              refine CmdReqDefFree.intro _ ?_ ?_ ?_
              · exact flagGroupInit_ok_forall hf
              · exact argGroupInit_ok_not_reqDef ha
              · intro d hd
                simp only [Cmd.commands] at hd
                obtain ⟨d', hd'⟩ := cmdGroupInitAux_ok_mem hc d hd
                have hszd : sizeOf d < sizeOf cs := List.sizeOf_lt_of_mem hd
                have hsz : sizeOf d ≤ n := by simp at hle; omega
                exact ih d hsz d' hd'

/-- Build failure propagates to every parse attempt: on an init error, every
`Parse` call returns that error (or the help/terminate path when the raw
input mentions `--help`), no matter the input (app.go:86-110). -/
theorem parseApp_of_init_error {env : String → String} {a : App} {e : Err}
    (h : appInit env a = .error e) (args : List String) :
    ParseApp env a args = if hasHelpRaw args then .terminated 1 else .err e := by
  simp [ParseApp, matchPhase, h]

theorem appInit_ok_parts {env : String → String} {a a0 : App}
    (h : appInit env a = .ok a0) :
    ∃ flags' cmds1 args' cmds2,
      flagGroupInit env a.flags = .ok flags' ∧
      cmdGroupInitAux env a.commands [] = .ok cmds1 ∧
      argGroupInit a.args = .ok args' ∧
      cmdsReinit env cmds1 = .ok cmds2 ∧
      checkDupFlagsList cmds2 [flags'] = .ok () ∧
      a0 = { a with flags := flags', args := args', commands := cmds2 } := by
  rw [appInit] at h
  by_cases hmix : (!a.commands.isEmpty && !a.args.isEmpty) = true
  · rw [if_pos hmix] at h; exact absurd h (by simp)
  · rw [if_neg hmix] at h
    cases hf : flagGroupInit env a.flags with
    | error e => rw [hf] at h; exact absurd h (by simp)
    | ok flags' =>
      rw [hf] at h
      dsimp only at h
      cases hc : cmdGroupInitAux env a.commands [] with
      | error e => rw [hc] at h; exact absurd h (by simp)
      | ok cmds1 =>
        rw [hc] at h
        dsimp only at h
        cases ha : argGroupInit a.args with
        | error e => rw [ha] at h; exact absurd h (by simp)
        | ok args' =>
          rw [ha] at h
          dsimp only at h
          cases hr : cmdsReinit env cmds1 with
          | error e => rw [hr] at h; exact absurd h (by simp)
          | ok cmds2 =>
            rw [hr] at h
            dsimp only at h
            cases hd : checkDupFlagsList cmds2 [flags'] with
            | error e => rw [hd] at h; exact absurd h (by simp)
            | ok u =>
              rw [hd] at h
              dsimp only at h
              refine ⟨flags', cmds1, args', cmds2, rfl, rfl, rfl, hr, ?_, ?_⟩
              · cases u; exact hd
              · cases h; rfl

/-- C7: a flag or argument declared both required and with a non-empty
default is rejected by its init with an error naming the declaration; a
successful build pass therefore contains no such declaration anywhere, and
when the build pass fails, every parse attempt fails with that build error
before any matching (or terminates on the explicit `--help` path). -/
theorem c7_required_with_default_rejected (env : String → String) :
    (∀ f : FlagClause, f.required = true → f.defaultValue ≠ "" →
      flagInit env f = .error (.requiredFlagWithDefault f.name)) ∧
    (∀ a : ArgClause, a.required = true → a.defaultValue ≠ "" →
      argInit a = .error (.requiredArgWithDefault a.name)) ∧
    (∀ (a : App) (a0 : App), appInit env a = .ok a0 →
      (∀ f ∈ a.flags, ¬(f.required = true ∧ f.defaultValue ≠ "")) ∧
      (∀ g ∈ a.args, ¬(g.required = true ∧ g.defaultValue ≠ "")) ∧
      (∀ c ∈ a.commands, CmdReqDefFree c)) ∧
    (∀ (a : App) (e : Err), appInit env a = .error e →
      ∀ args, ParseApp env a args = if hasHelpRaw args then .terminated 1 else .err e) := by
  refine ⟨?_, ?_, ?_, ?_⟩
  · intro f h1 h2
    rw [flagInit]
    simp [h1, h2]
  · intro a h1 h2
    rw [argInit]
    simp [h1, h2]
  · intro a a0 h
    obtain ⟨flags', cmds1, args', cmds2, hf, hc, ha, _, _, _⟩ := appInit_ok_parts h
    refine ⟨flagGroupInit_ok_forall hf, argGroupInit_ok_not_reqDef ha, ?_⟩
    intro c hc'
    obtain ⟨c', hcc⟩ := cmdGroupInitAux_ok_mem hc c hc'
    exact cmdInit_ok_reqDefFree env (sizeOf c) c le_rfl c' hcc
  · intro a e h args
    exact parseApp_of_init_error h args

/-- An application whose only declaration problem is a required flag carrying
a default. -/
def c7app : App :=
  { newApp "t" "" with
    flags := (newApp "t" "").flags ++
      [{ strFlag 1 "x" with required := true, defaultValue := "d" }] }

/-- Witness for C7: the bad flag is rejected by its init with the error
naming it, and parsing any input fails with exactly that build error. -/
theorem c7_required_with_default_rejected_witness :
    flagInit env0 { strFlag 1 "x" with required := true, defaultValue := "d" } =
      .error (.requiredFlagWithDefault "x") ∧
    ParseApp env0 c7app ["y"] = .err (.requiredFlagWithDefault "x") := by
  constructor
  · exact (c7_required_with_default_rejected env0).1 _ rfl (by decide)
  · have h := (c7_required_with_default_rejected env0).2.2.2 c7app
      (.requiredFlagWithDefault "x") (by rfl) ["y"]
    simpa [hasHelpRaw] using h

/-! ## C8: ordering constraints on a scope's argument list -/

theorem pairwise_req_of_forall_not {l : List ArgClause}
    (h : ∀ a ∈ l, a.required = false) :
    l.Pairwise (fun x y => y.required = true → x.required = true) := by
  induction l with
  | nil => exact List.Pairwise.nil
  | cons a rest ih =>
    refine List.Pairwise.cons ?_ (ih fun b hb => h b (List.mem_cons_of_mem a hb))
    intro b hb hreq
    exact absurd hreq (by simp [h b (List.mem_cons_of_mem a hb)])

theorem argGroupInitAux_ok_shape :
    ∀ (args : List ArgClause) (i r : Nat) (pm : Bool) (seen : List String)
      (l : List ArgClause), argGroupInitAux args i r pm seen = .ok l →
      (pm = true → args = []) ∧
      (r < i → ∀ a ∈ args, a.required = false) ∧
      (r = i → args.Pairwise (fun x y => y.required = true → x.required = true)) ∧
      args.Pairwise (fun x _ => x.consumesRemainder = false)
  | [], _, _, _, _, _, _ => by
    refine ⟨fun _ => rfl, by simp, fun _ => List.Pairwise.nil, List.Pairwise.nil⟩
  | arg :: rest, i, r, pm, seen, l, h => by
    rw [argGroupInitAux] at h
    by_cases hpm : pm = true
    · rw [hpm] at h; exact absurd h (by simp)
    · rw [Bool.not_eq_true] at hpm
      rw [hpm] at h
      simp only [Bool.false_eq_true, if_false] at h
      by_cases hseen : seen.contains arg.name = true
      · rw [if_pos hseen] at h; exact absurd h (by simp)
      · rw [if_neg hseen] at h
        by_cases hri : (arg.required && decide (r ≠ i)) = true
        · rw [if_pos hri] at h; exact absurd h (by simp)
        · rw [if_neg hri] at h
          cases hinit : argInit arg with
          | error e => rw [hinit] at h; exact absurd h (by simp)
          | ok a0 =>
            rw [hinit] at h
            cases hrest : argGroupInitAux rest (i + 1)
                (if arg.required = true then r + 1 else r) arg.consumesRemainder
                (arg.name :: seen) with
            | error e => rw [hrest] at h; exact absurd h (by simp [Except.map])
            | ok rest' =>
              obtain ⟨ih1, ih2, ih3, ih4⟩ :=
                argGroupInitAux_ok_shape rest (i + 1)
                  (if arg.required = true then r + 1 else r) arg.consumesRemainder
                  (arg.name :: seen) rest' hrest
              rw [Bool.and_eq_true, decide_eq_true_iff] at hri
              push_neg at hri
              refine ⟨fun hc => absurd hc (by simp [hpm]), ?_, ?_, ?_⟩
              · intro hlt a ha
                have hreq : arg.required = false := by
                  by_cases hr' : arg.required = true
                  · exact absurd (hri hr') (Nat.ne_of_lt hlt)
                  · exact Bool.not_eq_true _ ▸ hr'
                rcases List.mem_cons.mp ha with rfl | hmem
                · exact hreq
                · refine ih2 ?_ a hmem
                  simp only [hreq, Bool.false_eq_true, if_false]
                  omega
              · intro heq
                by_cases hr' : arg.required = true
                · refine List.Pairwise.cons (fun b _ _ => hr') ?_
                  exact ih3 (by simp [hr', heq])
                · have hreq : arg.required = false := Bool.not_eq_true _ ▸ hr'
                  have hall : ∀ b ∈ rest, b.required = false := by
                    refine ih2 ?_
                    simp only [hreq, Bool.false_eq_true, if_false]
                    omega
                  refine List.Pairwise.cons ?_ (pairwise_req_of_forall_not hall)
                  intro b hb hbreq
                  exact absurd hbreq (by simp [hall b hb])
              · by_cases hc : arg.consumesRemainder = true
                · have : rest = [] := ih1 (by rw [hc])
                  subst this
                  exact List.Pairwise.cons (by simp) List.Pairwise.nil
                · refine List.Pairwise.cons (fun b _ => Bool.not_eq_true _ ▸ hc) ih4

/-- C8 (amended): the build pass rejects any scope's ordered argument list in
which a required argument appears after a non-required one (the reverse of
the claim's phrasing; `required <arg>` followed by an optional `[<arg>]` is
accepted), and rejects any list in which a remainder-consuming argument is
followed by another argument: a successful `argGroup.init` implies the
required arguments form a prefix of the list and any remainder-consuming
argument is last. -/
theorem c8_argument_ordering (args l : List ArgClause)
    (h : argGroupInit args = .ok l) :
    args.Pairwise (fun x y => y.required = true → x.required = true) ∧
    args.Pairwise (fun x _ => x.consumesRemainder = false) := by
  obtain ⟨_, _, h3, h4⟩ := argGroupInitAux_ok_shape args 0 0 false [] l h
  exact ⟨h3 rfl, h4⟩

/-- Witness for C8 (amended) on the concrete list `<r> [<o>]`. -/
theorem c8_argument_ordering_witness :
    ([strArg 1 "r" true, strArg 2 "o" false].Pairwise
      (fun x y => y.required = true → x.required = true)) ∧
    ([strArg 1 "r" true, strArg 2 "o" false].Pairwise
      (fun x _ => x.consumesRemainder = false)) :=
  c8_argument_ordering [strArg 1 "r" true, strArg 2 "o" false]
    [strArg 1 "r" true, strArg 2 "o" false] rfl

/-- Counterexample for C8 as stated: the claim says a list in which a
required argument is followed by a non-required argument is rejected by the
build pass, but `argGroup.init` accepts `<r> [<o>]` (it rejects the reverse
pattern, per its own error message `required arguments found after
non-required`). -/
theorem c8_required_then_optional_accepted :
    argGroupInit [strArg 1 "r" true, strArg 2 "o" false] =
      .ok [strArg 1 "r" true, strArg 2 "o" false] := by
  rfl

/-! ## C10: the synthetic help flag and the usage/terminate path -/

/-- C10: every application built by `New` carries, before any user
registration, a boolean long flag named `help` in its root flag group; and
whenever the match phase succeeds with a context containing a matched element
for a flag named `help`, `Parse` terminates through the usage path (status 1)
instead of running the execution pipeline. -/
theorem c10_help_flag (env : String → String) (n h : String) (a a' : App)
    (args : List String) (ctx : Ctx) :
    lookupLong (newApp n h).flags "help" = some helpFlag ∧
    helpFlag.name = "help" ∧ helpFlag.kind.isBool = true ∧
    (matchPhase env a args = .ok (a', ctx) →
      ctx.elements.any isHelpElem = true →
      ParseApp env a args = .terminated 1) := by
  refine ⟨rfl, rfl, rfl, ?_⟩
  intro hm hh
  simp [ParseApp, hm, hh]

/-- The context produced by matching `--help` against a fresh application. -/
def c10ctx : Ctx :=
  { tokens := [⟨1, .eol, ""⟩], elements := [.flagElem helpFlag "true"],
    flags := [helpFlag], arguments := [], selectedCommand := "", sinks := [] }

/-- Witness for C10: a fresh application exposes the boolean `help` flag, and
parsing `--help` terminates with status 1. -/
theorem c10_help_flag_witness :
    lookupLong (newApp "t" "").flags "help" = some helpFlag ∧
    ParseApp env0 (newApp "t" "") ["--help"] = .terminated 1 := by
  have h := c10_help_flag env0 "t" "" (newApp "t" "") (newApp "t" "") ["--help"] c10ctx
  exact ⟨h.1, h.2.2.2 (by rfl) (by rfl)⟩

/-! ## C1: the defaults step of the execution pipeline -/

/-- Every visible flag that is unmatched and carries a non-empty default can
convert that default (no `value.Set` failure in the defaults step). -/
def flagDefaultsOK (elements : List Elem) (l : List FlagClause) : Prop :=
  ∀ f ∈ l, hasFlagElemNamed elements f.name = false → f.defaultValue ≠ "" →
    f.kind.accepts f.defaultValue = true

/-- Every merged argument that is unmatched and carries a non-empty default
can convert that default. -/
def argDefaultsOK (elements : List Elem) (l : List ArgClause) : Prop :=
  ∀ a ∈ l, hasArgElemNamed elements a.name = false → a.defaultValue ≠ "" →
    a.kind.accepts a.defaultValue = true

theorem setDefaultsFlags_sinks_mono (elements : List Elem) :
    ∀ (l : List FlagClause) (σ : Sinks) (x : Nat × String), x ∈ σ →
      x ∈ (setDefaultsFlags elements l σ).1
  | [], _, _, hx => hx
  | f :: rest, σ, x, hx => by
    rw [setDefaultsFlags]
    by_cases h1 : hasFlagElemNamed elements f.name = true
    · rw [if_pos h1]; exact setDefaultsFlags_sinks_mono elements rest σ x hx
    · rw [if_neg h1]
      by_cases h2 : f.needsValue = true
      · rw [if_pos h2]; exact hx
      · rw [if_neg h2]
        by_cases h3 : f.defaultValue ≠ ""
        · rw [if_pos h3]
          rw [sinkSet]
          by_cases h4 : f.kind.accepts f.defaultValue = true
          · rw [if_pos h4]
            exact setDefaultsFlags_sinks_mono elements rest (σ ++ [(f.id, f.defaultValue)])
              x (List.mem_append_left _ hx)
          · rw [if_neg h4]; exact hx
        · rw [if_neg h3]; exact setDefaultsFlags_sinks_mono elements rest σ x hx

theorem setDefaultsArgs_sinks_mono (elements : List Elem) :
    ∀ (l : List ArgClause) (σ : Sinks) (x : Nat × String), x ∈ σ →
      x ∈ (setDefaultsArgs elements l σ).1
  | [], _, _, hx => hx
  | a :: rest, σ, x, hx => by
    rw [setDefaultsArgs]
    by_cases h1 : hasArgElemNamed elements a.name = true
    · rw [if_pos h1]; exact setDefaultsArgs_sinks_mono elements rest σ x hx
    · rw [if_neg h1]
      by_cases h2 : a.required = true
      · rw [if_pos h2]; exact hx
      · rw [if_neg h2]
        by_cases h3 : a.defaultValue ≠ ""
        · rw [if_pos h3]
          rw [sinkSet]
          by_cases h4 : a.kind.accepts a.defaultValue = true
          · rw [if_pos h4]
            exact setDefaultsArgs_sinks_mono elements rest (σ ++ [(a.id, a.defaultValue)])
              x (List.mem_append_left _ hx)
          · rw [if_neg h4]; exact hx
        · rw [if_neg h3]; exact setDefaultsArgs_sinks_mono elements rest σ x hx

theorem setDefaultsFlags_spec (elements : List Elem) :
    ∀ (l : List FlagClause) (σ : Sinks), flagDefaultsOK elements l →
      ((∃ f ∈ l, f.needsValue = true ∧ hasFlagElemNamed elements f.name = false) →
        ∃ f ∈ l, f.needsValue = true ∧ hasFlagElemNamed elements f.name = false ∧
          (setDefaultsFlags elements l σ).2.2 = some (.requiredFlagNotProvided f.name)) ∧
      ((∀ f ∈ l, hasFlagElemNamed elements f.name = false → f.needsValue = false) →
        (setDefaultsFlags elements l σ).2.2 = none ∧
        ∀ f ∈ l, hasFlagElemNamed elements f.name = false → f.defaultValue ≠ "" →
          (f.id, f.defaultValue) ∈ (setDefaultsFlags elements l σ).1)
  | [], σ, _ => by
    refine ⟨?_, ?_⟩
    · rintro ⟨f, hf, -⟩; exact absurd hf (by simp)
    · intro _; exact ⟨rfl, by simp⟩
  | f :: rest, σ, hok => by
    have hokRest : flagDefaultsOK elements rest := fun g hg => hok g (List.mem_cons_of_mem f hg)
    refine ⟨?_, ?_⟩
    · rintro ⟨g, hg, hgneed, hgun⟩
      rw [setDefaultsFlags]
      by_cases h1 : hasFlagElemNamed elements f.name = true
      · rw [if_pos h1]
        have hgrest : g ∈ rest := by
          rcases List.mem_cons.mp hg with rfl | hmem
          · rw [h1] at hgun; cases hgun
          · exact hmem
        obtain ⟨g', hg', h1', h2', h3'⟩ := (setDefaultsFlags_spec elements rest σ hokRest).1
          ⟨g, hgrest, hgneed, hgun⟩
        exact ⟨g', List.mem_cons_of_mem f hg', h1', h2', h3'⟩
      · rw [if_neg h1]
        by_cases h2 : f.needsValue = true
        · rw [if_pos h2]
          exact ⟨f, List.mem_cons_self f rest, h2, Bool.not_eq_true _ ▸ h1, rfl⟩
        · rw [if_neg h2]
          have hgrest : g ∈ rest := by
            rcases List.mem_cons.mp hg with rfl | hmem
            · rw [hgneed] at h2; cases h2 rfl
            · exact hmem
          by_cases h3 : f.defaultValue ≠ ""
          · rw [if_pos h3]
            have hacc := hok f (List.mem_cons_self f rest) (Bool.not_eq_true _ ▸ h1) h3
            rw [sinkSet, if_pos hacc]
            obtain ⟨g', hg', h1', h2', h3'⟩ :=
              (setDefaultsFlags_spec elements rest (σ ++ [(f.id, f.defaultValue)]) hokRest).1
                ⟨g, hgrest, hgneed, hgun⟩
            exact ⟨g', List.mem_cons_of_mem f hg', h1', h2', h3'⟩
          · rw [if_neg h3]
            obtain ⟨g', hg', h1', h2', h3'⟩ := (setDefaultsFlags_spec elements rest σ hokRest).1
              ⟨g, hgrest, hgneed, hgun⟩
            exact ⟨g', List.mem_cons_of_mem f hg', h1', h2', h3'⟩
    · intro hnone
      have hnoneRest : ∀ g ∈ rest, hasFlagElemNamed elements g.name = false →
          g.needsValue = false := fun g hg => hnone g (List.mem_cons_of_mem f hg)
      rw [setDefaultsFlags]
      by_cases h1 : hasFlagElemNamed elements f.name = true
      · rw [if_pos h1]
        obtain ⟨e1, e2⟩ := (setDefaultsFlags_spec elements rest σ hokRest).2 hnoneRest
        refine ⟨e1, ?_⟩
        intro g hg hgun hgdef
        rcases List.mem_cons.mp hg with rfl | hmem
        · rw [h1] at hgun; cases hgun
        · exact e2 g hmem hgun hgdef
      · rw [if_neg h1]
        have h2 : f.needsValue = false := hnone f (List.mem_cons_self f rest)
          (Bool.not_eq_true _ ▸ h1)
        rw [if_neg (by simp [h2])]
        by_cases h3 : f.defaultValue ≠ ""
        · rw [if_pos h3]
          have hacc := hok f (List.mem_cons_self f rest) (Bool.not_eq_true _ ▸ h1) h3
          rw [sinkSet, if_pos hacc]
          obtain ⟨e1, e2⟩ :=
            (setDefaultsFlags_spec elements rest (σ ++ [(f.id, f.defaultValue)]) hokRest).2
              hnoneRest
          refine ⟨e1, ?_⟩
          intro g hg hgun hgdef
          rcases List.mem_cons.mp hg with rfl | hmem
          · exact setDefaultsFlags_sinks_mono elements rest _ _
              (List.mem_append_right σ (by simp))
          · exact e2 g hmem hgun hgdef
        · rw [if_neg h3]
          obtain ⟨e1, e2⟩ := (setDefaultsFlags_spec elements rest σ hokRest).2 hnoneRest
          refine ⟨e1, ?_⟩
          intro g hg hgun hgdef
          rcases List.mem_cons.mp hg with rfl | hmem
          · cases h3 hgdef
          · exact e2 g hmem hgun hgdef

theorem setDefaultsArgs_spec (elements : List Elem) :
    ∀ (l : List ArgClause) (σ : Sinks), argDefaultsOK elements l →
      ((∃ a ∈ l, a.required = true ∧ hasArgElemNamed elements a.name = false) →
        ∃ a ∈ l, a.required = true ∧ hasArgElemNamed elements a.name = false ∧
          (setDefaultsArgs elements l σ).2.2 = some (.requiredArgNotProvided a.name)) ∧
      ((∀ a ∈ l, hasArgElemNamed elements a.name = false → a.required = false) →
        (setDefaultsArgs elements l σ).2.2 = none ∧
        ∀ a ∈ l, hasArgElemNamed elements a.name = false → a.defaultValue ≠ "" →
          (a.id, a.defaultValue) ∈ (setDefaultsArgs elements l σ).1)
  | [], σ, _ => by
    refine ⟨?_, ?_⟩
    · rintro ⟨a, ha, -⟩; exact absurd ha (by simp)
    · intro _; exact ⟨rfl, by simp⟩
  | a :: rest, σ, hok => by
    have hokRest : argDefaultsOK elements rest := fun g hg => hok g (List.mem_cons_of_mem a hg)
    refine ⟨?_, ?_⟩
    · rintro ⟨g, hg, hgreq, hgun⟩
      rw [setDefaultsArgs]
      by_cases h1 : hasArgElemNamed elements a.name = true
      · rw [if_pos h1]
        have hgrest : g ∈ rest := by
          rcases List.mem_cons.mp hg with rfl | hmem
          · rw [h1] at hgun; cases hgun
          · exact hmem
        obtain ⟨g', hg', h1', h2', h3'⟩ := (setDefaultsArgs_spec elements rest σ hokRest).1
          ⟨g, hgrest, hgreq, hgun⟩
        exact ⟨g', List.mem_cons_of_mem a hg', h1', h2', h3'⟩
      · rw [if_neg h1]
        by_cases h2 : a.required = true
        · rw [if_pos h2]
          exact ⟨a, List.mem_cons_self a rest, h2, Bool.not_eq_true _ ▸ h1, rfl⟩
        · rw [if_neg h2]
          have hgrest : g ∈ rest := by
            rcases List.mem_cons.mp hg with rfl | hmem
            · cases h2 hgreq
            · exact hmem
          by_cases h3 : a.defaultValue ≠ ""
          · rw [if_pos h3]
            have hacc := hok a (List.mem_cons_self a rest) (Bool.not_eq_true _ ▸ h1) h3
            rw [sinkSet, if_pos hacc]
            obtain ⟨g', hg', h1', h2', h3'⟩ :=
              (setDefaultsArgs_spec elements rest (σ ++ [(a.id, a.defaultValue)]) hokRest).1
                ⟨g, hgrest, hgreq, hgun⟩
            exact ⟨g', List.mem_cons_of_mem a hg', h1', h2', h3'⟩
          · rw [if_neg h3]
            obtain ⟨g', hg', h1', h2', h3'⟩ := (setDefaultsArgs_spec elements rest σ hokRest).1
              ⟨g, hgrest, hgreq, hgun⟩
            exact ⟨g', List.mem_cons_of_mem a hg', h1', h2', h3'⟩
    · intro hnone
      have hnoneRest : ∀ g ∈ rest, hasArgElemNamed elements g.name = false →
          g.required = false := fun g hg => hnone g (List.mem_cons_of_mem a hg)
      rw [setDefaultsArgs]
      by_cases h1 : hasArgElemNamed elements a.name = true
      · rw [if_pos h1]
        obtain ⟨e1, e2⟩ := (setDefaultsArgs_spec elements rest σ hokRest).2 hnoneRest
        refine ⟨e1, ?_⟩
        intro g hg hgun hgdef
        rcases List.mem_cons.mp hg with rfl | hmem
        · rw [h1] at hgun; cases hgun
        · exact e2 g hmem hgun hgdef
      · rw [if_neg h1]
        have h2 : a.required = false := hnone a (List.mem_cons_self a rest)
          (Bool.not_eq_true _ ▸ h1)
        rw [if_neg (by simp [h2])]
        by_cases h3 : a.defaultValue ≠ ""
        · rw [if_pos h3]
          have hacc := hok a (List.mem_cons_self a rest) (Bool.not_eq_true _ ▸ h1) h3
          rw [sinkSet, if_pos hacc]
          obtain ⟨e1, e2⟩ :=
            (setDefaultsArgs_spec elements rest (σ ++ [(a.id, a.defaultValue)]) hokRest).2
              hnoneRest
          refine ⟨e1, ?_⟩
          intro g hg hgun hgdef
          rcases List.mem_cons.mp hg with rfl | hmem
          · exact setDefaultsArgs_sinks_mono elements rest _ _
              (List.mem_append_right σ (by simp))
          · exact e2 g hmem hgun hgdef
        · rw [if_neg h3]
          obtain ⟨e1, e2⟩ := (setDefaultsArgs_spec elements rest σ hokRest).2 hnoneRest
          refine ⟨e1, ?_⟩
          intro g hg hgun hgdef
          rcases List.mem_cons.mp hg with rfl | hmem
          · cases h3 hgdef
          · exact e2 g hmem hgun hgdef

/-- C1 (amended): for every declared flag and argument visible in the parse
context that produced no matched element, the defaults step fails with a hard
error naming such a flag if it still needs a value (required with no default
captured at build time — an environment-derived default captured by init
satisfies the requirement), and fails naming such an argument if it is
required; otherwise it assigns each non-empty literal or environment-derived
default string into the owning sink.  A defaults-step error aborts the
execution pipeline and is the outcome of `Parse`. -/
theorem c1_defaults_step (ctx : Ctx) (env : String → String) (a a' : App)
    (args : List String) (e : Err)
    (hfOK : flagDefaultsOK ctx.elements ctx.flags)
    (haOK : argDefaultsOK ctx.elements ctx.arguments) :
    ((∃ f ∈ ctx.flags, f.needsValue = true ∧
        hasFlagElemNamed ctx.elements f.name = false) →
      ∃ f ∈ ctx.flags, f.needsValue = true ∧
        hasFlagElemNamed ctx.elements f.name = false ∧
        (setDefaults ctx).2.2 = some (.requiredFlagNotProvided f.name)) ∧
    ((∀ f ∈ ctx.flags, hasFlagElemNamed ctx.elements f.name = false →
        f.needsValue = false) →
      ((∃ g ∈ ctx.arguments, g.required = true ∧
          hasArgElemNamed ctx.elements g.name = false) →
        ∃ g ∈ ctx.arguments, g.required = true ∧
          hasArgElemNamed ctx.elements g.name = false ∧
          (setDefaults ctx).2.2 = some (.requiredArgNotProvided g.name)) ∧
      ((∀ g ∈ ctx.arguments, hasArgElemNamed ctx.elements g.name = false →
          g.required = false) →
        (setDefaults ctx).2.2 = none ∧
        (∀ f ∈ ctx.flags, hasFlagElemNamed ctx.elements f.name = false →
          f.defaultValue ≠ "" → (f.id, f.defaultValue) ∈ (setDefaults ctx).1) ∧
        (∀ g ∈ ctx.arguments, hasArgElemNamed ctx.elements g.name = false →
          g.defaultValue ≠ "" → (g.id, g.defaultValue) ∈ (setDefaults ctx).1))) ∧
    ((setDefaults ctx).2.2 = some e → (execute a' ctx).res = .error e) ∧
    (matchPhase env a args = .ok (a', ctx) → ctx.elements.any isHelpElem = false →
      ctx.EOL = true → (setDefaults ctx).2.2 = some e →
      ParseApp env a args = .err e) := by
  have hF := setDefaultsFlags_spec ctx.elements ctx.flags ctx.sinks hfOK
  refine ⟨?_, ?_, ?_, ?_⟩
  · rintro hex
    obtain ⟨f, hf, h1, h2, h3⟩ := hF.1 hex
    refine ⟨f, hf, h1, h2, ?_⟩
    simp only [setDefaults, h3]
  · intro hflags
    obtain ⟨hfe, hfmem⟩ := hF.2 hflags
    have hA := setDefaultsArgs_spec ctx.elements ctx.arguments
      (setDefaultsFlags ctx.elements ctx.flags ctx.sinks).1 haOK
    constructor
    · rintro hex
      obtain ⟨g, hg, h1, h2, h3⟩ := hA.1 hex
      refine ⟨g, hg, h1, h2, ?_⟩
      simp only [setDefaults, hfe, h3]
    · intro hargs
      obtain ⟨hae, hamem⟩ := hA.2 hargs
      refine ⟨?_, ?_, ?_⟩
      · simp only [setDefaults, hfe, hae]
      · intro f hf h1 h2
        simp only [setDefaults, hfe]
        exact setDefaultsArgs_sinks_mono ctx.elements ctx.arguments _ _ (hfmem f hf h1 h2)
      · intro g hg h1 h2
        simp only [setDefaults, hfe]
        exact hamem g hg h1 h2
  · intro herr
    simp only [execute, herr]
  · intro hm hh hEOL herr
    simp only [ParseApp, hm, hh]
    simp only [hEOL, Bool.not_true, Bool.false_eq_true, if_false, execute, herr]

/-- A parse context whose visible flags include an unmatched required flag. -/
def c1ctx : Ctx :=
  { tokens := [⟨0, .eol, ""⟩], elements := [],
    flags := [helpFlag, { strFlag 1 "x" with required := true }],
    arguments := [], selectedCommand := "", sinks := [] }

/-- Witness for C1 at a concrete context omitting the required flag `x`. -/
theorem c1_defaults_step_witness :
    ∃ f ∈ c1ctx.flags, f.needsValue = true ∧
      hasFlagElemNamed c1ctx.elements f.name = false ∧
      (setDefaults c1ctx).2.2 = some (.requiredFlagNotProvided f.name) :=
  (c1_defaults_step c1ctx env0 (newApp "t" "") (newApp "t" "") [] .outOfFuel
    (by unfold flagDefaultsOK; decide) (by unfold argDefaultsOK; decide)).1
    ⟨{ strFlag 1 "x" with required := true }, by decide, by decide, by decide⟩

/-- An application whose required flag `x` takes its default from the
environment variable `XV`. -/
def c1app : App :=
  { newApp "t" "" with
    flags := (newApp "t" "").flags ++ [{ strFlag 1 "x" with required := true, envar := "XV" }] }

/-- The environment supplying `XV=5`. -/
def c1env : String → String := fun v => if v == "XV" then "5" else ""

/-- Counterexample for C1 as stated: flag `x` is declared required, the input
is empty (no matched element for `x`), yet the parse succeeds — the
environment-derived default captured at build time silently satisfies the
requirement (`needsValue` is false once init rewrote the default), so the
defaults step does not fail and no error names `x`. -/
theorem c1_required_envar_counterexample :
    ({ strFlag 1 "x" with required := true, envar := "XV" }).required = true ∧
    (matchPhase c1env c1app []).map (fun p => hasFlagElemNamed p.2.elements "x") =
      .ok false ∧
    ParseApp c1env c1app [] = .ok "" := by
  exact ⟨rfl, rfl, rfl⟩

/-! ## C5: when validators are invoked -/

/-- The events one matched element contributes during the value-assignment
step (app.go:362-384): an assignment for flag/argument elements, and — in
the source as written — a validator invocation for command elements. -/
def valueStepEvents : Elem → List Ev
  | .flagElem f v => [.assign f.id v]
  | .argElem a v => [.assign a.id v]
  | .cmdElem c => if c.validator.isSome then [.cmdValidator c.id] else []

/-- The validator invocations of the validators step, in element order. -/
def validatorEvents (elements : List Elem) : List Ev :=
  elements.flatMap fun e => match e with
    | .cmdElem c => if c.validator.isSome then [.cmdValidator c.id] else []
    | _ => []

theorem setValuesAux_trace_of_ok :
    ∀ (elements : List Elem) (σ : Sinks) (lc : Option Cmd) (sel : List String),
      (setValuesAux elements σ lc sel).2.2.2.2 = none →
      (setValuesAux elements σ lc sel).2.2.1 = elements.flatMap valueStepEvents
  | [], _, _, _, _ => rfl
  | .flagElem f v :: rest, σ, lc, sel, h => by
    rw [setValuesAux] at h ⊢
    cases hs : sinkSet σ f.id f.kind v with
    | none => rw [hs] at h; simp at h
    | some σ' =>
      rw [hs] at h
      dsimp only at h ⊢
      rw [setValuesAux_trace_of_ok rest σ' lc sel h]
      simp [valueStepEvents]
  | .argElem a v :: rest, σ, lc, sel, h => by
    rw [setValuesAux] at h ⊢
    cases hs : sinkSet σ a.id a.kind v with
    | none => rw [hs] at h; simp at h
    | some σ' =>
      rw [hs] at h
      dsimp only at h ⊢
      rw [setValuesAux_trace_of_ok rest σ' lc sel h]
      simp [valueStepEvents]
  | .cmdElem c :: rest, σ, lc, sel, h => by
    rw [setValuesAux] at h ⊢
    cases hv : c.validator with
    | none =>
      rw [hv] at h
      dsimp only at h ⊢
      rw [setValuesAux_trace_of_ok rest σ (some c) (sel ++ [c.name]) h]
      simp [valueStepEvents, hv]
    | some r =>
      cases r with
      | none =>
        rw [hv] at h
        dsimp only at h ⊢
        rw [setValuesAux_trace_of_ok rest σ (some c) (sel ++ [c.name]) h]
        simp [valueStepEvents, hv]
      | some msg => rw [hv] at h; simp at h

theorem setValues_trace (elements : List Elem) (σ : Sinks) :
    (setValues elements σ).2.2.1 = (setValuesAux elements σ none []).2.2.1 := by
  rw [setValues]
  cases (setValuesAux elements σ none []).2.2.2.2 with
  | some e => rfl
  | none =>
    dsimp only
    cases (setValuesAux elements σ none []).2.2.2.1 with
    | none => rfl
    | some c =>
      dsimp only
      by_cases hc : c.commands.isEmpty
      · simp [hc]
      · simp [hc]

theorem setValues_ok_aux {elements : List Elem} {σ : Sinks}
    (h : (setValues elements σ).2.2.2 = none) :
    (setValuesAux elements σ none []).2.2.2.2 = none := by
  rw [setValues] at h
  cases hr : (setValuesAux elements σ none []).2.2.2.2 with
  | none => rfl
  | some e => rw [hr] at h; simp at h

theorem setValuesAux_append_of_ok :
    ∀ (pre suf : List Elem) (σ : Sinks) (lc : Option Cmd) (sel : List String),
      (setValuesAux pre σ lc sel).2.2.2.2 = none →
      (setValuesAux (pre ++ suf) σ lc sel).2.2.2.2 =
        (setValuesAux suf (setValuesAux pre σ lc sel).1
          (setValuesAux pre σ lc sel).2.2.2.1
          (setValuesAux pre σ lc sel).2.1).2.2.2.2 ∧
      (setValuesAux (pre ++ suf) σ lc sel).2.2.1 =
        (setValuesAux pre σ lc sel).2.2.1 ++
          (setValuesAux suf (setValuesAux pre σ lc sel).1
            (setValuesAux pre σ lc sel).2.2.2.1
            (setValuesAux pre σ lc sel).2.1).2.2.1
  | [], suf, σ, lc, sel, _ => by
    simp [setValuesAux]
  | .flagElem f v :: pre, suf, σ, lc, sel, h => by
    rw [setValuesAux] at h
    cases hs : sinkSet σ f.id f.kind v with
    | none => rw [hs] at h; simp at h
    | some σ' =>
      rw [hs] at h
      dsimp only at h
      have ih := setValuesAux_append_of_ok pre suf σ' lc sel h
      simp only [List.cons_append, setValuesAux, hs, List.append_eq]
      exact ⟨ih.1, by rw [ih.2]⟩
  | .argElem a v :: pre, suf, σ, lc, sel, h => by
    rw [setValuesAux] at h
    cases hs : sinkSet σ a.id a.kind v with
    | none => rw [hs] at h; simp at h
    | some σ' =>
      rw [hs] at h
      dsimp only at h
      have ih := setValuesAux_append_of_ok pre suf σ' lc sel h
      simp only [List.cons_append, setValuesAux, hs, List.append_eq]
      exact ⟨ih.1, by rw [ih.2]⟩
  | .cmdElem c :: pre, suf, σ, lc, sel, h => by
    rw [setValuesAux] at h
    cases hv : c.validator with
    | none =>
      rw [hv] at h
      dsimp only at h
      have ih := setValuesAux_append_of_ok pre suf σ (some c) (sel ++ [c.name]) h
      simp only [List.cons_append, setValuesAux, hv, List.append_eq]
      exact ih
    | some r =>
      cases r with
      | none =>
        rw [hv] at h
        dsimp only at h
        have ih := setValuesAux_append_of_ok pre suf σ (some c) (sel ++ [c.name]) h
        simp only [List.cons_append, setValuesAux, hv, List.append_eq]
        exact ⟨ih.1, by rw [ih.2]⟩
      | some msg => rw [hv] at h; simp at h

theorem applyValidatorsAux_trace_of_ok :
    ∀ (elements : List Elem), (applyValidatorsAux elements).2 = none →
      (applyValidatorsAux elements).1 = validatorEvents elements
  | [], _ => rfl
  | .flagElem f v :: rest, h => by
    rw [applyValidatorsAux] at h ⊢
    rw [applyValidatorsAux_trace_of_ok rest h]
    simp [validatorEvents]
  | .argElem a v :: rest, h => by
    rw [applyValidatorsAux] at h ⊢
    rw [applyValidatorsAux_trace_of_ok rest h]
    simp [validatorEvents]
  | .cmdElem c :: rest, h => by
    rw [applyValidatorsAux] at h ⊢
    cases hv : c.validator with
    | none =>
      rw [hv] at h
      dsimp only at h ⊢
      rw [applyValidatorsAux_trace_of_ok rest h]
      simp [validatorEvents, hv]
    | some r =>
      cases r with
      | none =>
        rw [hv] at h
        dsimp only at h ⊢
        rw [applyValidatorsAux_trace_of_ok rest h]
        simp [validatorEvents, hv]
      | some msg => rw [hv] at h; simp at h

theorem applyValidators_trace_of_ok {a : App} {elements : List Elem}
    (h : (applyValidators a elements).2 = none) :
    (applyValidators a elements).1 =
      validatorEvents elements ++
        (if a.validator.isSome then [.rootValidator] else []) := by
  rw [applyValidators] at h ⊢
  cases hr : (applyValidatorsAux elements).2 with
  | some e => rw [hr] at h; simp at h
  | none =>
    rw [hr] at h
    dsimp only at h ⊢
    cases hv : a.validator with
    | none => simp [applyValidatorsAux_trace_of_ok elements hr]
    | some r =>
      cases r with
      | none => simp [applyValidatorsAux_trace_of_ok elements hr]
      | some msg => rw [hv] at h; simp at h

/-- C5 (amended): in the execution pipeline each matched command's validator
is invoked twice — once by the value-assignment step, interleaved with the
sink assignments in element order (before later elements' values are
assigned), and again by the validators step, which runs after all values are
assigned and invokes the matched commands' validators in match order followed
by the root validator, before any dispatch callback; the first validator
failure aborts the pipeline with that error: a command validator failing
during the value-assignment step aborts there, before later elements' values
are assigned and before the validators step runs, and a validator failing in
the validators step aborts before any dispatch callback. -/
theorem c5_validator_ordering (a : App) (ctx : Ctx) (e : Err)
    (hd : (setDefaults ctx).2.2 = none) :
    ((setValues ctx.elements (setDefaults ctx).1).2.2.2 = none →
      (execute a ctx).trace =
        (setDefaults ctx).2.1 ++
          (ctx.elements.flatMap valueStepEvents ++
            ((applyValidators a ctx.elements).1 ++
              (if (applyValidators a ctx.elements).2 = none then
                (applyActions a ctx.elements).1 else [])))) ∧
    ((applyValidators a ctx.elements).2 = none →
      (applyValidators a ctx.elements).1 =
        validatorEvents ctx.elements ++
          (if a.validator.isSome then [.rootValidator] else [])) ∧
    ((setValues ctx.elements (setDefaults ctx).1).2.2.2 = none →
      (applyValidators a ctx.elements).2 = some e →
      (execute a ctx).res = .error e) ∧
    ((setValues ctx.elements (setDefaults ctx).1).2.2.2 = some e →
      (execute a ctx).res = .error e ∧
      (execute a ctx).trace =
        (setDefaults ctx).2.1 ++
          (setValues ctx.elements (setDefaults ctx).1).2.2.1) ∧
    (∀ (pre : List Elem) (c : Cmd) (rest : List Elem) (msg : String),
      ctx.elements = pre ++ .cmdElem c :: rest →
      c.validator = some (some msg) →
      (setValuesAux pre (setDefaults ctx).1 none []).2.2.2.2 = none →
      (execute a ctx).res = .error (.validatorFailed msg) ∧
      (execute a ctx).trace =
        (setDefaults ctx).2.1 ++
          (pre.flatMap valueStepEvents ++ [.cmdValidator c.id])) := by
  refine ⟨?_, fun h => applyValidators_trace_of_ok h, ?_, ?_, ?_⟩
  · intro hv
    have htr : (setValues ctx.elements (setDefaults ctx).1).2.2.1 =
        ctx.elements.flatMap valueStepEvents := by
      rw [setValues_trace]
      exact setValuesAux_trace_of_ok _ _ _ _ (setValues_ok_aux hv)
    cases hval : (applyValidators a ctx.elements).2 with
    | none =>
      cases hact : (applyActions a ctx.elements).2 with
      | none => simp [execute, hd, hv, hval, hact, htr]
      | some e' => simp [execute, hd, hv, hval, hact, htr]
    | some e' => simp [execute, hd, hv, hval, htr]
  · intro hv hval
    simp [execute, hd, hv, hval]
  · intro hsv
    constructor
    · simp [execute, hd, hsv]
    · simp [execute, hd, hsv]
  · intro pre c rest msg helems hmsg hpre
    have hdec := setValuesAux_append_of_ok pre (.cmdElem c :: rest)
      (setDefaults ctx).1 none [] hpre
    rw [setValuesAux, hmsg] at hdec
    dsimp only at hdec
    have htrpre : (setValuesAux pre (setDefaults ctx).1 none []).2.2.1 =
        pre.flatMap valueStepEvents :=
      setValuesAux_trace_of_ok pre (setDefaults ctx).1 none [] hpre
    have hsv : (setValues ctx.elements (setDefaults ctx).1).2.2.2 =
        some (.validatorFailed msg) ∧
        (setValues ctx.elements (setDefaults ctx).1).2.2.1 =
          pre.flatMap valueStepEvents ++ [.cmdValidator c.id] := by
      rw [helems, setValues]
      rw [hdec.1]
      dsimp only
      rw [hdec.2, htrpre]
      exact ⟨rfl, rfl⟩
    constructor
    · simp [execute, hd, hsv.1]
    · simp [execute, hd, hsv.1, hsv.2]

/-- A command with a (succeeding) validator and one boolean flag. -/
def c5cmd : Cmd := .mk 20 "c" [boolFlag 21 "x"] [] [] (some none) none

/-- An application holding `c5cmd`. -/
def c5app : App := { newApp "t" "" with commands := [c5cmd] }

/-- The pipeline event trace of parsing `c --x` against `c5app`. -/
def c5trace : List Ev :=
  match matchPhase env0 c5app ["c", "--x"] with
  | .ok (a', ctx) => (execute a' ctx).trace
  | .error _ => []

/-- A command whose validator fails with `boom`, and one boolean flag. -/
def c5bad : Cmd := .mk 30 "d" [boolFlag 31 "y"] [] [] (some (some "boom")) none

/-- An application holding `c5bad`. -/
def c5badApp : App := { newApp "t" "" with commands := [c5bad] }

/-- The pipeline event trace of parsing `d --y` against `c5badApp`. -/
def c5badTrace : List Ev :=
  match matchPhase env0 c5badApp ["d", "--y"] with
  | .ok (a', ctx) => (execute a' ctx).trace
  | .error _ => []

/-- Witness for C5 (amended) at the concrete parses `c --x` (passing
validator: the interleaved double invocation) and `d --y` (failing
validator: the pipeline aborts inside the value-assignment step, before the
flag's value is assigned, and the error is the parse outcome). -/
theorem c5_validator_ordering_witness :
    c5trace = [.cmdValidator 20, .assign 21 "true", .cmdValidator 20] ∧
    c5badTrace = [.cmdValidator 30] ∧
    ParseApp env0 c5badApp ["d", "--y"] = .err (.validatorFailed "boom") := by
  refine ⟨?_, ?_, by rfl⟩
  · have h := c5_validator_ordering c5app
      { tokens := [⟨2, .eol, ""⟩],
        elements := [.cmdElem c5cmd, .flagElem (boolFlag 21 "x") "true"],
        flags := [helpFlag, boolFlag 21 "x"], arguments := [],
        selectedCommand := "c", sinks := [] } .outOfFuel (by rfl)
    have h1 := h.1 (by rfl)
    simpa [c5trace] using h1
  · have h := c5_validator_ordering c5badApp
      { tokens := [⟨2, .eol, ""⟩],
        elements := [.cmdElem c5bad, .flagElem (boolFlag 31 "y") "true"],
        flags := [helpFlag, boolFlag 31 "y"], arguments := [],
        selectedCommand := "d", sinks := [] } (.validatorFailed "boom") (by rfl)
    have h5 := (h.2.2.2.2 [] c5bad [.flagElem (boolFlag 31 "y") "true"] "boom"
      (by rfl) (by rfl) (by rfl)).2
    simpa [c5badTrace] using h5

/-- Counterexample for C5 as stated: parsing `c --x` yields the trace
`[validator c, assign x true, validator c]` — the validator of the matched
command runs before the flag's value is assigned (inside the
value-assignment step, app.go:375-380) and runs twice, contradicting the
claim that validators run only in the validators step, after all matched
values are assigned. -/
theorem c5_counterexample :
    c5trace = [.cmdValidator 20, .assign 21 "true", .cmdValidator 20] ∧
    c5trace.count (.cmdValidator 20) = 2 ∧
    c5trace.take 1 = [.cmdValidator 20] := by
  refine ⟨by rfl, by rfl, by rfl⟩

/-! ## Token-stream and element bookkeeping lemmas for the matcher

Every matcher function only ever consumes tokens from the front of the
stream; these lemmas record that the resulting stream is a suffix of the
input stream (and strictly shorter whenever a token was consumed), and track
which command elements are appended.  They underpin both the termination
argument (C6) and the selection-path property (C4). -/

/-- The command declarations recorded in a matched-element list, in order. -/
def cmdElems (elements : List Elem) : List Cmd :=
  elements.filterMap fun e => match e with
    | .cmdElem c => some c
    | _ => none

theorem cmdElems_append (l1 l2 : List Elem) :
    cmdElems (l1 ++ l2) = cmdElems l1 ++ cmdElems l2 := by
  simp [cmdElems]

/-- The command-descent paths of a command set: each selected command is a
member of the previous level's set. -/
inductive DescentPath : List Cmd → List Cmd → Prop
  | nil (cmds : List Cmd) : DescentPath cmds []
  | cons {cmds : List Cmd} {c : Cmd} {rest : List Cmd} :
      c ∈ cmds → DescentPath c.commands rest → DescentPath cmds (c :: rest)

theorem cmdLookup_mem {cmds : List Cmd} {n : String} {c : Cmd}
    (h : cmdLookup cmds n = some c) : c ∈ cmds := by
  have := List.mem_of_find?_eq_some h
  exact List.mem_reverse.mp this

theorem nextTokens_suffix (l : List Token) : nextTokens l <:+ l := by
  cases l with
  | nil => exact List.suffix_refl _
  | cons t rest =>
    rw [nextTokens]
    by_cases h : t.ty = TokTy.eol
    · rw [if_pos h]
    · rw [if_neg h]; exact List.suffix_cons t rest

theorem Ctx.next_tokens_suffix (ctx : Ctx) : ctx.next.tokens <:+ ctx.tokens :=
  nextTokens_suffix ctx.tokens

theorem Ctx.next_length_le (ctx : Ctx) :
    ctx.next.tokens.length ≤ ctx.tokens.length :=
  (Ctx.next_tokens_suffix ctx).length_le

theorem Ctx.next_length_lt {ctx : Ctx} (h : ctx.peek.ty ≠ .eol) :
    ctx.next.tokens.length < ctx.tokens.length := by
  show (nextTokens ctx.tokens).length < ctx.tokens.length
  cases htk : ctx.tokens with
  | nil => exact absurd (by simp [Ctx.peek, htk, eolToken]) h
  | cons t rest =>
    have hty : t.ty ≠ TokTy.eol := by
      simpa [Ctx.peek, htk] using h
    rw [nextTokens, if_neg hty]
    simp

theorem suffix_ne_length_lt {α : Type} {l1 l2 : List α}
    (hs : l1 <:+ l2) (hne : l1 ≠ l2) : l1.length < l2.length := by
  rcases Nat.lt_or_ge l1.length l2.length with h | h
  · exact h
  · exact absurd (List.IsSuffix.eq_of_length hs (Nat.le_antisymm hs.length_le h)) hne

theorem flagStep_state (ctx : Ctx) (t : Token) :
    (flagStep ctx t).1.tokens <:+ ctx.tokens ∧
    cmdElems (flagStep ctx t).1.elements = cmdElems ctx.elements ∧
    (flagStep ctx t).1.flags = ctx.flags ∧
    (flagStep ctx t).1.arguments = ctx.arguments ∧
    (flagStep ctx t).1.sinks = ctx.sinks := by
  rw [flagStep]
  cases resolveFlag ctx.flags t with
  | error e => exact ⟨List.suffix_refl _, rfl, rfl, rfl, rfl⟩
  | ok p =>
    obtain ⟨flag, invert⟩ := p
    dsimp only
    by_cases hb : flag.kind.isBool = true
    · rw [if_pos hb]
      exact ⟨Ctx.next_tokens_suffix ctx, by simp [Ctx.matchedFlag, Ctx.next, cmdElems_append,
        cmdElems], rfl, rfl, rfl⟩
    · rw [if_neg hb]
      by_cases hi : invert = true
      · rw [if_pos hi]
        exact ⟨Ctx.next_tokens_suffix ctx, rfl, rfl, rfl, rfl⟩
      · rw [if_neg hi]
        by_cases ha : ctx.next.peek.ty = TokTy.arg
        · rw [if_pos ha]
          refine ⟨((Ctx.next_tokens_suffix ctx.next).trans (Ctx.next_tokens_suffix ctx)),
            ?_, rfl, rfl, rfl⟩
          simp [Ctx.matchedFlag, Ctx.next, cmdElems_append, cmdElems]
        · rw [if_neg ha]
          exact ⟨Ctx.next_tokens_suffix ctx, rfl, rfl, rfl, rfl⟩

theorem flagStep_none_length_lt {ctx ctx1 : Ctx}
    (hty : ctx.peek.ty ≠ .eol) (h : flagStep ctx ctx.peek = (ctx1, none)) :
    ctx1.tokens.length < ctx.tokens.length := by
  rw [flagStep] at h
  cases hres : resolveFlag ctx.flags ctx.peek with
  | error e => rw [hres] at h; simp at h
  | ok p =>
    obtain ⟨flag, invert⟩ := p
    rw [hres] at h
    dsimp only at h
    by_cases hb : flag.kind.isBool = true
    · rw [if_pos hb] at h
      cases h
      exact Ctx.next_length_lt hty
    · rw [if_neg hb] at h
      by_cases hi : invert = true
      · rw [if_pos hi] at h; simp at h
      · rw [if_neg hi] at h
        by_cases ha : ctx.next.peek.ty = TokTy.arg
        · rw [if_pos ha] at h
          cases h
          exact Nat.lt_of_le_of_lt (Ctx.next_length_le ctx.next) (Ctx.next_length_lt hty)
        · rw [if_neg ha] at h; simp at h

theorem flagGroupParse_state :
    ∀ (fuel : Nat) (ctx ctx1 : Ctx) (e : Option Err),
      flagGroupParse fuel ctx = some (ctx1, e) →
      ctx1.tokens <:+ ctx.tokens ∧
      cmdElems ctx1.elements = cmdElems ctx.elements ∧
      ctx1.flags = ctx.flags ∧ ctx1.arguments = ctx.arguments ∧ ctx1.sinks = ctx.sinks
  | 0, _, _, _, h => by simp [flagGroupParse] at h
  | fuel + 1, ctx, ctxr, e, h => by
    rw [flagGroupParse] at h
    cases hty : ctx.peek.ty with
    | eol =>
      rw [hty] at h
      cases h
      exact ⟨List.suffix_refl _, rfl, rfl, rfl, rfl⟩
    | arg =>
      rw [hty] at h
      cases h
      exact ⟨List.suffix_refl _, rfl, rfl, rfl, rfl⟩
    | long =>
      rw [hty] at h
      dsimp only at h
      obtain ⟨hsuf, hce, hfl, har, hsk⟩ := flagStep_state ctx ctx.peek
      cases hfs : flagStep ctx ctx.peek with
      | mk ctx2 e2 =>
        rw [hfs] at h hsuf hce hfl har hsk
        cases e2 with
        | some err => cases h; exact ⟨hsuf, hce, hfl, har, hsk⟩
        | none =>
          dsimp only at h hsuf hce hfl har hsk
          obtain ⟨hsuf', hce', hfl', har', hsk'⟩ := flagGroupParse_state fuel ctx2 ctxr e h
          exact ⟨hsuf'.trans hsuf, hce'.trans hce, hfl'.trans hfl, har'.trans har,
            hsk'.trans hsk⟩
    | short =>
      rw [hty] at h
      dsimp only at h
      obtain ⟨hsuf, hce, hfl, har, hsk⟩ := flagStep_state ctx ctx.peek
      cases hfs : flagStep ctx ctx.peek with
      | mk ctx2 e2 =>
        rw [hfs] at h hsuf hce hfl har hsk
        cases e2 with
        | some err => cases h; exact ⟨hsuf, hce, hfl, har, hsk⟩
        | none =>
          dsimp only at h hsuf hce hfl har hsk
          obtain ⟨hsuf', hce', hfl', har', hsk'⟩ := flagGroupParse_state fuel ctx2 ctxr e h
          exact ⟨hsuf'.trans hsuf, hce'.trans hce, hfl'.trans hfl, har'.trans har,
            hsk'.trans hsk⟩

theorem flagGroupParse_isSome :
    ∀ (fuel : Nat) (ctx : Ctx), ctx.tokens.length < fuel →
      (flagGroupParse fuel ctx).isSome = true
  | 0, _, h => by omega
  | fuel + 1, ctx, h => by
    rw [flagGroupParse]
    cases hty : ctx.peek.ty with
    | eol => rfl
    | arg => rfl
    | long =>
      cases hfs : flagStep ctx ctx.peek with
      | mk ctx2 e2 =>
        cases e2 with
        | some err => rfl
        | none =>
          dsimp only
          refine flagGroupParse_isSome fuel ctx2 ?_
          have := flagStep_none_length_lt (by rw [hty]; simp) hfs
          omega
    | short =>
      cases hfs : flagStep ctx ctx.peek with
      | mk ctx2 e2 =>
        cases e2 with
        | some err => rfl
        | none =>
          dsimp only
          refine flagGroupParse_isSome fuel ctx2 ?_
          have := flagStep_none_length_lt (by rw [hty]; simp) hfs
          omega

theorem argGroupLoop_state :
    ∀ (fuel : Nat) (args : List ArgClause) (last : Option Token) (consumed : Nat)
      (ctx : Ctx) (r : Ctx × List ArgClause × Option Err),
      argGroupLoop fuel args last consumed ctx = some r →
      r.1.tokens <:+ ctx.tokens ∧
      cmdElems r.1.elements = cmdElems ctx.elements ∧
      r.1.flags = ctx.flags ∧ r.1.arguments = ctx.arguments ∧ r.1.sinks = ctx.sinks
  | 0, _, _, _, _, _, h => by simp [argGroupLoop] at h
  | fuel + 1, [], last, consumed, ctx, r, h => by
    rw [argGroupLoop] at h
    cases h
    exact ⟨List.suffix_refl _, rfl, rfl, rfl, rfl⟩
  | fuel + 1, arg :: restArgs, last, consumed, ctx, r, h => by
    rw [argGroupLoop] at h
    by_cases h1 : ctx.peek.ty = TokTy.eol
    · rw [if_pos h1] at h
      by_cases h2 : (consumed == 0 && arg.required) = true
      · rw [if_pos (by simpa using h2)] at h
        cases h
        exact ⟨List.suffix_refl _, rfl, rfl, rfl, rfl⟩
      · rw [if_neg (by simpa using h2)] at h
        cases h
        exact ⟨List.suffix_refl _, rfl, rfl, rfl, rfl⟩
    · rw [if_neg h1] at h
      by_cases h2 : ctx.peek.ty ≠ TokTy.arg
      · rw [if_pos h2] at h
        cases h
        exact ⟨List.suffix_refl _, rfl, rfl, rfl, rfl⟩
      · rw [if_neg h2] at h
        have hsuf1 : ((ctx.matchedArg arg ctx.peek.val).next).tokens <:+ ctx.tokens :=
          Ctx.next_tokens_suffix _
        have hce1 : cmdElems ((ctx.matchedArg arg ctx.peek.val).next).elements =
            cmdElems ctx.elements := by
          simp [Ctx.matchedArg, Ctx.next, cmdElems_append, cmdElems]
        by_cases h3 : arg.consumesRemainder = true
        · rw [if_pos h3] at h
          cases last with
          | none =>
            rw [if_neg (by simp)] at h
            obtain ⟨hs, hc, hf, ha, hk⟩ := argGroupLoop_state fuel (arg :: restArgs)
              (some ctx.peek) (consumed + 1) _ r h
            exact ⟨hs.trans hsuf1, hc.trans hce1, hf, ha, hk⟩
          | some l =>
            by_cases h4 : l.equal ((ctx.matchedArg arg ctx.peek.val).next).peek = true
            · rw [if_pos (by simpa using h4)] at h
              cases h
              exact ⟨hsuf1, hce1, rfl, rfl, rfl⟩
            · rw [if_neg (by simpa using h4)] at h
              obtain ⟨hs, hc, hf, ha, hk⟩ := argGroupLoop_state fuel (arg :: restArgs)
                (some ctx.peek) (consumed + 1) _ r h
              exact ⟨hs.trans hsuf1, hc.trans hce1, hf, ha, hk⟩
        · rw [if_neg h3] at h
          obtain ⟨hs, hc, hf, ha, hk⟩ := argGroupLoop_state fuel restArgs
            (some ctx.peek) consumed _ r h
          exact ⟨hs.trans hsuf1, hc.trans hce1, hf, ha, hk⟩

theorem argGroupLoop_isSome :
    ∀ (fuel : Nat) (args : List ArgClause) (last : Option Token) (consumed : Nat)
      (ctx : Ctx), ctx.tokens.length < fuel →
      (argGroupLoop fuel args last consumed ctx).isSome = true
  | 0, _, _, _, _, h => by omega
  | fuel + 1, [], last, consumed, ctx, h => by rw [argGroupLoop]; rfl
  | fuel + 1, arg :: restArgs, last, consumed, ctx, h => by
    rw [argGroupLoop]
    by_cases h1 : ctx.peek.ty = TokTy.eol
    · rw [if_pos h1]
      by_cases h2 : (consumed == 0 && arg.required) = true
      · rw [if_pos (by simpa using h2)]; rfl
      · rw [if_neg (by simpa using h2)]; rfl
    · rw [if_neg h1]
      by_cases h2 : ctx.peek.ty ≠ TokTy.arg
      · rw [if_pos h2]; rfl
      · rw [if_neg h2]
        have hlt : ((ctx.matchedArg arg ctx.peek.val).next).tokens.length <
            ctx.tokens.length := by
          have : ((ctx.matchedArg arg ctx.peek.val)).peek.ty ≠ TokTy.eol := by
            simpa [Ctx.matchedArg, Ctx.peek] using h1
          simpa [Ctx.matchedArg] using Ctx.next_length_lt this
        by_cases h3 : arg.consumesRemainder = true
        · rw [if_pos h3]
          cases last with
          | none =>
            rw [if_neg (by simp)]
            exact argGroupLoop_isSome fuel (arg :: restArgs) (some ctx.peek)
              (consumed + 1) _ (by omega)
          | some l =>
            by_cases h4 : l.equal ((ctx.matchedArg arg ctx.peek.val).next).peek = true
            · rw [if_pos (by simpa using h4)]; rfl
            · rw [if_neg (by simpa using h4)]
              exact argGroupLoop_isSome fuel (arg :: restArgs) (some ctx.peek)
                (consumed + 1) _ (by omega)
        · rw [if_neg h3]
          exact argGroupLoop_isSome fuel restArgs (some ctx.peek) consumed _ (by omega)

theorem argDefaults_state :
    ∀ (l : List ArgClause) (ctx : Ctx),
      (argDefaults l ctx).1.tokens = ctx.tokens ∧
      (argDefaults l ctx).1.elements = ctx.elements ∧
      (argDefaults l ctx).1.flags = ctx.flags ∧
      (argDefaults l ctx).1.arguments = ctx.arguments
  | [], ctx => ⟨rfl, rfl, rfl, rfl⟩
  | arg :: rest, ctx => by
    rw [argDefaults]
    by_cases h1 : arg.defaultValue ≠ ""
    · rw [if_pos h1]
      cases hs : sinkSet ctx.sinks arg.id arg.kind arg.defaultValue with
      | none => exact ⟨rfl, rfl, rfl, rfl⟩
      | some σ => exact argDefaults_state rest { ctx with sinks := σ }
    · rw [if_neg h1]
      exact argDefaults_state rest ctx

theorem argGroupParse_state {fuel : Nat} {args : List ArgClause} {ctx : Ctx}
    {r : Ctx × Option Err} (h : argGroupParse fuel args ctx = some r) :
    r.1.tokens <:+ ctx.tokens ∧
    cmdElems r.1.elements = cmdElems ctx.elements ∧
    r.1.flags = ctx.flags ∧ r.1.arguments = ctx.arguments := by
  rw [argGroupParse] at h
  cases hl : argGroupLoop fuel args none 0 ctx with
  | none => rw [hl] at h; simp at h
  | some r1 =>
    rw [hl] at h
    obtain ⟨ctx1, remaining, e1⟩ := r1
    obtain ⟨hs, hc, hf, ha, _⟩ := argGroupLoop_state fuel args none 0 ctx _ hl
    cases e1 with
    | some err =>
      cases h
      exact ⟨hs, hc, hf, ha⟩
    | none =>
      dsimp only at h
      cases h
      obtain ⟨ds, de, df, da⟩ := argDefaults_state remaining ctx1
      exact ⟨ds ▸ hs, by rw [de]; exact hc, df.trans hf, da.trans ha⟩

theorem argGroupParse_isSome (fuel : Nat) (args : List ArgClause) (ctx : Ctx)
    (h : ctx.tokens.length < fuel) : (argGroupParse fuel args ctx).isSome = true := by
  rw [argGroupParse]
  cases hl : argGroupLoop fuel args none 0 ctx with
  | none =>
    have := argGroupLoop_isSome fuel args none 0 ctx h
    rw [hl] at this
    simp at this
  | some r1 =>
    obtain ⟨ctx1, remaining, e1⟩ := r1
    cases e1 with
    | some err => rfl
    | none => rfl

theorem cmdGroupParse_state :
    ∀ (fuel : Nat) (cmds : List Cmd) (ctx : Ctx) (r : Ctx × List String × Option Err),
      cmdGroupParse fuel cmds ctx = some r →
      r.1.tokens <:+ ctx.tokens ∧
      ∃ path, DescentPath cmds path ∧
        cmdElems r.1.elements = cmdElems ctx.elements ++ path
  | 0, _, _, _, h => by simp [cmdGroupParse] at h
  | fuel + 1, cmds, ctx, r, h => by
    rw [cmdGroupParse] at h
    dsimp only at h
    by_cases h1 : ctx.peek.ty = TokTy.eol
    · rw [if_pos h1] at h
      cases h
      exact ⟨List.suffix_refl _, [], DescentPath.nil cmds, by simp⟩
    · rw [if_neg h1] at h
      by_cases h2 : ctx.peek.ty ≠ TokTy.arg
      · rw [if_pos h2] at h
        cases h
        exact ⟨List.suffix_refl _, [], DescentPath.nil cmds, by simp⟩
      · rw [if_neg h2] at h
        cases hlook : cmdLookup cmds ctx.peek.val with
        | none =>
          rw [hlook] at h
          cases h
          exact ⟨List.suffix_refl _, [], DescentPath.nil cmds, by simp⟩
        | some cmd =>
          rw [hlook] at h
          dsimp only at h
          have hmem : cmd ∈ cmds := cmdLookup_mem hlook
          set ctxA := (({ ctx.next with selectedCommand := cmd.name }).mergeFlags
            cmd.flags).matchedCmd cmd with hctxA
          have hAsuf : ctxA.tokens <:+ ctx.tokens := by
            rw [hctxA]
            simpa [Ctx.mergeFlags, Ctx.matchedCmd, Ctx.next] using
              nextTokens_suffix ctx.tokens
          have hAce : cmdElems ctxA.elements = cmdElems ctx.elements ++ [cmd] := by
            rw [hctxA]
            simp [Ctx.mergeFlags, Ctx.matchedCmd, Ctx.next, cmdElems_append, cmdElems]
          cases hfp : flagGroupParse (ctxA.tokens.length + 1) ctxA with
          | none => rw [hfp] at h; cases h
          | some p1 =>
            rw [hfp] at h
            obtain ⟨ctx1, e1⟩ := p1
            obtain ⟨h1suf, h1ce, h1fl, h1ar, h1sk⟩ :=
              flagGroupParse_state _ ctxA ctx1 e1 hfp
            cases e1 with
            | some e =>
              dsimp only at h
              cases h
              exact ⟨h1suf.trans hAsuf, [cmd],
                DescentPath.cons hmem (DescentPath.nil _),
                by rw [h1ce, hAce]⟩
            | none =>
              dsimp only at h
              have hstep2 : ∀ (s : Option (Ctx × List String × Option Err)),
                  (if !cmd.commands.isEmpty then cmdGroupParse fuel cmd.commands ctx1
                   else if !cmd.args.isEmpty then
                     match argGroupParse (ctx1.tokens.length + 1) cmd.args
                         (ctx1.mergeArgs cmd.args) with
                     | none => none
                     | some (ctx2, e) => some (ctx2, [], e)
                   else some (ctx1, [], none)) = s →
                  s = none ∨ ∃ q : Ctx × List String × Option Err, s = some q ∧
                    q.1.tokens <:+ ctx1.tokens ∧
                    ∃ path2, DescentPath cmd.commands path2 ∧
                      cmdElems q.1.elements = cmdElems ctx1.elements ++ path2 := by
                intro s hs
                by_cases hc : !cmd.commands.isEmpty
                · rw [if_pos hc] at hs
                  cases s with
                  | none => exact Or.inl rfl
                  | some q =>
                    right
                    obtain ⟨qs, path2, hp2, hq2⟩ :=
                      cmdGroupParse_state fuel cmd.commands ctx1 q hs
                    exact ⟨q, rfl, qs, path2, hp2, hq2⟩
                · rw [if_neg hc] at hs
                  by_cases ha : !cmd.args.isEmpty
                  · rw [if_pos ha] at hs
                    cases hag : argGroupParse (ctx1.tokens.length + 1) cmd.args
                        (ctx1.mergeArgs cmd.args) with
                    | none => rw [hag] at hs; exact Or.inl hs.symm
                    | some p2 =>
                      rw [hag] at hs
                      obtain ⟨ctx2, e2⟩ := p2
                      obtain ⟨hs2, hc2, _, _⟩ := argGroupParse_state hag
                      right
                      refine ⟨(ctx2, [], e2), hs.symm, ?_, [], DescentPath.nil _, ?_⟩
                      · simpa [Ctx.mergeArgs] using hs2
                      · simpa [Ctx.mergeArgs, cmdElems] using hc2
                  · rw [if_neg ha] at hs
                    exact Or.inr ⟨(ctx1, [], none), hs.symm, List.suffix_refl _, [],
                      DescentPath.nil _, by simp⟩
              rcases hstep2 _ rfl with hnone | ⟨q, hq, hqsuf, path2, hp2, hqce⟩
              · rw [hnone] at h; cases h
              · rw [hq] at h
                obtain ⟨ctx2, sel2, e2⟩ := q
                dsimp only at h
                cases hfp2 : flagGroupParse (ctx2.tokens.length + 1) ctx2 with
                | none => rw [hfp2] at h; cases h
                | some p3 =>
                  rw [hfp2] at h
                  obtain ⟨ctx3, e3⟩ := p3
                  obtain ⟨h3suf, h3ce, _, _, _⟩ := flagGroupParse_state _ ctx2 ctx3 e3 hfp2
                  have hsuf : ctx3.tokens <:+ ctx.tokens :=
                    ((h3suf.trans hqsuf).trans h1suf).trans hAsuf
                  have hce : cmdElems ctx3.elements =
                      cmdElems ctx.elements ++ (cmd :: path2) := by
                    rw [h3ce, hqce, h1ce, hAce, List.append_assoc]
                    rfl
                  cases e3 with
                  | some e =>
                    dsimp only at h
                    cases e2 with
                    | some e2' => cases h; exact ⟨hsuf, cmd :: path2,
                        DescentPath.cons hmem hp2, hce⟩
                    | none => cases h; exact ⟨hsuf, cmd :: path2,
                        DescentPath.cons hmem hp2, hce⟩
                  | none =>
                    dsimp only at h
                    cases e2 with
                    | some e2' => cases h; exact ⟨hsuf, cmd :: path2,
                        DescentPath.cons hmem hp2, hce⟩
                    | none => cases h; exact ⟨hsuf, cmd :: path2,
                        DescentPath.cons hmem hp2, hce⟩

theorem cmdGroupParse_isSome :
    ∀ (fuel : Nat) (cmds : List Cmd) (ctx : Ctx), ctx.tokens.length < fuel →
      (cmdGroupParse fuel cmds ctx).isSome = true
  | 0, _, _, h => by omega
  | fuel + 1, cmds, ctx, h => by
    rw [cmdGroupParse]
    dsimp only
    by_cases h1 : ctx.peek.ty = TokTy.eol
    · rw [if_pos h1]; rfl
    · rw [if_neg h1]
      by_cases h2 : ctx.peek.ty ≠ TokTy.arg
      · rw [if_pos h2]; rfl
      · rw [if_neg h2]
        cases hlook : cmdLookup cmds ctx.peek.val with
        | none => rfl
        | some cmd =>
          dsimp only
          set ctxA := (({ ctx.next with selectedCommand := cmd.name }).mergeFlags
            cmd.flags).matchedCmd cmd with hctxA
          have hAlen : ctxA.tokens.length < ctx.tokens.length := by
            rw [hctxA]
            simpa [Ctx.mergeFlags, Ctx.matchedCmd] using Ctx.next_length_lt h1
          cases hfp : flagGroupParse (ctxA.tokens.length + 1) ctxA with
          | none =>
            have := flagGroupParse_isSome (ctxA.tokens.length + 1) ctxA (by omega)
            rw [hfp] at this
            simp at this
          | some p1 =>
            obtain ⟨ctx1, e1⟩ := p1
            obtain ⟨h1suf, _, _, _, _⟩ := flagGroupParse_state _ ctxA ctx1 e1 hfp
            have h1len : ctx1.tokens.length < ctx.tokens.length :=
              Nat.lt_of_le_of_lt h1suf.length_le hAlen
            cases e1 with
            | some e => rfl
            | none =>
              dsimp only
              have hstep2 : ∀ (s : Option (Ctx × List String × Option Err)),
                  (if !cmd.commands.isEmpty then cmdGroupParse fuel cmd.commands ctx1
                   else if !cmd.args.isEmpty then
                     match argGroupParse (ctx1.tokens.length + 1) cmd.args
                         (ctx1.mergeArgs cmd.args) with
                     | none => none
                     | some (ctx2, e) => some (ctx2, [], e)
                   else some (ctx1, [], none)) = s →
                  ∃ q : Ctx × List String × Option Err, s = some q ∧
                    q.1.tokens <:+ ctx1.tokens := by
                intro s hs
                by_cases hc : !cmd.commands.isEmpty
                · rw [if_pos hc] at hs
                  cases s with
                  | none =>
                    have := cmdGroupParse_isSome fuel cmd.commands ctx1 (by omega)
                    rw [hs] at this
                    simp at this
                  | some q =>
                    obtain ⟨qs, _⟩ := cmdGroupParse_state fuel cmd.commands ctx1 q hs
                    exact ⟨q, rfl, qs⟩
                · rw [if_neg hc] at hs
                  by_cases ha : !cmd.args.isEmpty
                  · rw [if_pos ha] at hs
                    cases hag : argGroupParse (ctx1.tokens.length + 1) cmd.args
                        (ctx1.mergeArgs cmd.args) with
                    | none =>
                      have := argGroupParse_isSome (ctx1.tokens.length + 1) cmd.args
                        (ctx1.mergeArgs cmd.args) (by simp [Ctx.mergeArgs])
                      rw [hag] at this
                      simp at this
                    | some p2 =>
                      rw [hag] at hs
                      obtain ⟨ctx2, e2⟩ := p2
                      obtain ⟨hs2, _, _, _⟩ := argGroupParse_state hag
                      exact ⟨(ctx2, [], e2), hs.symm, by simpa [Ctx.mergeArgs] using hs2⟩
                  · rw [if_neg ha] at hs
                    exact ⟨(ctx1, [], none), hs.symm, List.suffix_refl _⟩
              obtain ⟨q, hq, hqsuf⟩ := hstep2 _ rfl
              rw [hq]
              obtain ⟨ctx2, sel2, e2⟩ := q
              dsimp only
              cases hfp2 : flagGroupParse (ctx2.tokens.length + 1) ctx2 with
              | none =>
                have := flagGroupParse_isSome (ctx2.tokens.length + 1) ctx2 (by omega)
                rw [hfp2] at this
                simp at this
              | some p3 =>
                obtain ⟨ctx3, e3⟩ := p3
                cases e3 with
                | some e =>
                  cases e2 with
                  | some e2' => rfl
                  | none => rfl
                | none =>
                  cases e2 with
                  | some e2' => rfl
                  | none => rfl

theorem parsePositional_state {fuel : Nat} {cmds : List Cmd} {args : List ArgClause}
    {ctx : Ctx} {r : Ctx × List String × Option Err}
    (h : parsePositional fuel cmds args ctx = some r) :
    r.1.tokens <:+ ctx.tokens ∧
    ∃ path, DescentPath cmds path ∧
      cmdElems r.1.elements = cmdElems ctx.elements ++ path := by
  rw [parsePositional] at h
  by_cases hc : !cmds.isEmpty
  · rw [if_pos hc] at h
    exact cmdGroupParse_state fuel cmds ctx r h
  · rw [if_neg hc] at h
    by_cases ha : !args.isEmpty
    · rw [if_pos ha] at h
      cases hag : argGroupParse (ctx.tokens.length + 1) args (ctx.mergeArgs args) with
      | none => rw [hag] at h; cases h
      | some p =>
        rw [hag] at h
        obtain ⟨ctx1, e1⟩ := p
        cases h
        obtain ⟨hs, hce, _, _⟩ := argGroupParse_state hag
        refine ⟨by simpa [Ctx.mergeArgs] using hs, [], DescentPath.nil _, ?_⟩
        simpa [Ctx.mergeArgs, cmdElems] using hce
    · rw [if_neg ha] at h
      cases h
      exact ⟨List.suffix_refl _, [], DescentPath.nil _, by simp⟩

theorem parsePositional_isSome (fuel : Nat) (cmds : List Cmd) (args : List ArgClause)
    (ctx : Ctx) (h : ctx.tokens.length < fuel) :
    (parsePositional fuel cmds args ctx).isSome = true := by
  rw [parsePositional]
  by_cases hc : !cmds.isEmpty
  · rw [if_pos hc]
    exact cmdGroupParse_isSome fuel cmds ctx h
  · rw [if_neg hc]
    by_cases ha : !args.isEmpty
    · rw [if_pos ha]
      cases hag : argGroupParse (ctx.tokens.length + 1) args (ctx.mergeArgs args) with
      | none =>
        have := argGroupParse_isSome (ctx.tokens.length + 1) args (ctx.mergeArgs args)
          (by simp [Ctx.mergeArgs])
        rw [hag] at this
        simp at this
      | some p => obtain ⟨ctx1, e1⟩ := p; rfl
    · rw [if_neg ha]; rfl

theorem parseFinal_state {cmds : List Cmd} {args : List ArgClause} {seenArg : Bool}
    {selected : List String} {e : Option Err} {ctx : Ctx}
    {r : Ctx × List String × Option Err}
    (h : parseFinal cmds args seenArg selected e ctx = some r) :
    r.1.tokens <:+ ctx.tokens ∧
    ∃ path, DescentPath cmds path ∧
      cmdElems r.1.elements = cmdElems ctx.elements ++ path := by
  rw [parseFinal] at h
  by_cases hc : (!seenArg && ctx.peek.ty == TokTy.arg) = true
  · rw [if_pos hc] at h
    exact parsePositional_state h
  · rw [if_neg hc] at h
    cases h
    exact ⟨List.suffix_refl _, [], DescentPath.nil _, by simp⟩

theorem parseFinal_isSome (cmds : List Cmd) (args : List ArgClause) (seenArg : Bool)
    (selected : List String) (e : Option Err) (ctx : Ctx) :
    (parseFinal cmds args seenArg selected e ctx).isSome = true := by
  rw [parseFinal]
  by_cases hc : (!seenArg && ctx.peek.ty == TokTy.arg) = true
  · rw [if_pos hc]
    exact parsePositional_isSome _ cmds args ctx (by omega)
  · rw [if_neg hc]; rfl

theorem parseFinal_seen_true (cmds : List Cmd) (args : List ArgClause)
    (sel : List String) (e : Option Err) (ctx : Ctx) :
    parseFinal cmds args true sel e ctx = some (ctx, sel, e) := by
  rw [parseFinal]
  simp

theorem peek_eq_of_tokens_eq {ctx ctx1 : Ctx} (h : ctx1.tokens = ctx.tokens) :
    ctx1.peek = ctx.peek := by
  rw [Ctx.peek, Ctx.peek, h]

theorem parseNodeLoop_state :
    ∀ (cmds : List Cmd) (args : List ArgClause) (fuel : Nat) (ctx : Ctx)
      (seen : Bool) (sel : List String) (r : Ctx × List String × Option Err),
      parseNodeLoop cmds args fuel ctx seen sel = some r →
      r.1.tokens <:+ ctx.tokens ∧
      ∃ path, DescentPath cmds path ∧
        cmdElems r.1.elements = cmdElems ctx.elements ++ path ∧
        (seen = true → path = [])
  | _, _, 0, _, _, _, _, h => by simp [parseNodeLoop] at h
  | cmds, args, fuel + 1, ctx, seen, sel, r, h => by
    rw [parseNodeLoop] at h
    by_cases hEOL : ctx.EOL = true
    · rw [if_pos hEOL] at h
      cases seen with
      | true =>
        rw [parseFinal_seen_true] at h
        cases h
        exact ⟨List.suffix_refl _, [], DescentPath.nil _, by simp, fun _ => rfl⟩
      | false =>
        obtain ⟨hs, path, hp, hc⟩ := parseFinal_state h
        exact ⟨hs, path, hp, hc, by simp⟩
    · rw [if_neg hEOL] at h
      dsimp only at h
      have hfinal : ∀ (sel' : List String) (e' : Option Err) (ctx' : Ctx),
          parseFinal cmds args seen sel' e' ctx' = some r →
          r.1.tokens <:+ ctx'.tokens ∧
          ∃ path, DescentPath cmds path ∧
            cmdElems r.1.elements = cmdElems ctx'.elements ++ path ∧
            (seen = true → path = []) := by
        intro sel' e' ctx' h'
        cases seen with
        | true =>
          rw [parseFinal_seen_true] at h'
          cases h'
          exact ⟨List.suffix_refl _, [], DescentPath.nil _, by simp, fun _ => rfl⟩
        | false =>
          obtain ⟨hs, path, hp, hc⟩ := parseFinal_state h'
          exact ⟨hs, path, hp, hc, by simp⟩
      cases hty : ctx.peek.ty with
      | eol =>
        rw [hty] at h
        dsimp only at h
        exact hfinal _ _ _ h
      | long =>
        rw [hty] at h
        dsimp only at h
        cases hfp : flagGroupParse (ctx.tokens.length + 1) ctx with
        | none => rw [hfp] at h; cases h
        | some p1 =>
          rw [hfp] at h
          obtain ⟨ctx1, e1⟩ := p1
          obtain ⟨h1suf, h1ce, _, _, _⟩ := flagGroupParse_state _ ctx ctx1 e1 hfp
          dsimp only at h
          by_cases hprog : (!ctx1.EOL && (ctx.peek).equal ctx1.peek) = true
          · rw [if_pos hprog] at h
            cases h
            exact ⟨h1suf, [], DescentPath.nil _, by simp [h1ce], fun _ => rfl⟩
          · rw [if_neg hprog] at h
            cases e1 with
            | some err =>
              obtain ⟨hs, path, hp, hc, hsn⟩ := hfinal _ _ _ h
              exact ⟨hs.trans h1suf, path, hp, by rw [hc, h1ce], hsn⟩
            | none =>
              obtain ⟨hs, path, hp, hc, hsn⟩ :=
                parseNodeLoop_state cmds args fuel ctx1 seen sel r h
              exact ⟨hs.trans h1suf, path, hp, by rw [hc, h1ce], hsn⟩
      | short =>
        rw [hty] at h
        dsimp only at h
        cases hfp : flagGroupParse (ctx.tokens.length + 1) ctx with
        | none => rw [hfp] at h; cases h
        | some p1 =>
          rw [hfp] at h
          obtain ⟨ctx1, e1⟩ := p1
          obtain ⟨h1suf, h1ce, _, _, _⟩ := flagGroupParse_state _ ctx ctx1 e1 hfp
          dsimp only at h
          by_cases hprog : (!ctx1.EOL && (ctx.peek).equal ctx1.peek) = true
          · rw [if_pos hprog] at h
            cases h
            exact ⟨h1suf, [], DescentPath.nil _, by simp [h1ce], fun _ => rfl⟩
          · rw [if_neg hprog] at h
            cases e1 with
            | some err =>
              obtain ⟨hs, path, hp, hc, hsn⟩ := hfinal _ _ _ h
              exact ⟨hs.trans h1suf, path, hp, by rw [hc, h1ce], hsn⟩
            | none =>
              obtain ⟨hs, path, hp, hc, hsn⟩ :=
                parseNodeLoop_state cmds args fuel ctx1 seen sel r h
              exact ⟨hs.trans h1suf, path, hp, by rw [hc, h1ce], hsn⟩
      | arg =>
        rw [hty] at h
        dsimp only at h
        cases seen with
        | true =>
          rw [if_pos rfl] at h
          cases h
          exact ⟨List.suffix_refl _, [], DescentPath.nil _, by simp, by simp⟩
        | false =>
          rw [if_neg (by simp)] at h
          cases hpp : parsePositional (ctx.tokens.length + 1) cmds args ctx with
          | none => rw [hpp] at h; cases h
          | some p1 =>
            rw [hpp] at h
            obtain ⟨ctx1, sel1, e1⟩ := p1
            obtain ⟨h1suf, path1, hp1, h1ce⟩ := parsePositional_state hpp
            dsimp only at h
            by_cases hprog : (!ctx1.EOL && (ctx.peek).equal ctx1.peek) = true
            · rw [if_pos hprog] at h
              cases h
              exact ⟨h1suf, path1, hp1, h1ce, by simp⟩
            · rw [if_neg hprog] at h
              cases e1 with
              | some err =>
                dsimp only at h
                rw [parseFinal_seen_true] at h
                cases h
                exact ⟨h1suf, path1, hp1, h1ce, by simp⟩
              | none =>
                obtain ⟨hs, path2, hp2, hc2, hsn2⟩ :=
                  parseNodeLoop_state cmds args fuel ctx1 true sel1 r h
                have : path2 = [] := hsn2 rfl
                subst this
                refine ⟨hs.trans h1suf, path1, hp1, ?_, by simp⟩
                rw [hc2, h1ce]
                simp

theorem parseNodeLoop_isSome :
    ∀ (cmds : List Cmd) (args : List ArgClause) (fuel : Nat) (ctx : Ctx)
      (seen : Bool) (sel : List String), ctx.tokens.length < fuel →
      (parseNodeLoop cmds args fuel ctx seen sel).isSome = true
  | _, _, 0, _, _, _, h => by omega
  | cmds, args, fuel + 1, ctx, seen, sel, h => by
    rw [parseNodeLoop]
    by_cases hEOL : ctx.EOL = true
    · rw [if_pos hEOL]
      exact parseFinal_isSome cmds args seen sel none ctx
    · rw [if_neg hEOL]
      dsimp only
      cases hty : ctx.peek.ty with
      | eol => exact parseFinal_isSome cmds args seen sel none ctx
      | long =>
        dsimp only
        cases hfp : flagGroupParse (ctx.tokens.length + 1) ctx with
        | none =>
          have := flagGroupParse_isSome (ctx.tokens.length + 1) ctx (by omega)
          rw [hfp] at this
          simp at this
        | some p1 =>
          obtain ⟨ctx1, e1⟩ := p1
          obtain ⟨h1suf, _, _, _, _⟩ := flagGroupParse_state _ ctx ctx1 e1 hfp
          dsimp only
          by_cases hprog : (!ctx1.EOL && (ctx.peek).equal ctx1.peek) = true
          · rw [if_pos hprog]; rfl
          · rw [if_neg hprog]
            cases e1 with
            | some err => exact parseFinal_isSome cmds args seen sel _ ctx1
            | none =>
              have hne : ctx1.tokens ≠ ctx.tokens := by
                intro hEq
                apply hprog
                have hpk := peek_eq_of_tokens_eq hEq
                have hEOL1 : ctx1.EOL = false := by
                  rw [Ctx.EOL, hpk]
                  simpa [Ctx.EOL] using hEOL
                simp [hEOL1, hpk, Token.equal]
              have hlt := suffix_ne_length_lt h1suf hne
              exact parseNodeLoop_isSome cmds args fuel ctx1 seen sel (by omega)
      | short =>
        dsimp only
        cases hfp : flagGroupParse (ctx.tokens.length + 1) ctx with
        | none =>
          have := flagGroupParse_isSome (ctx.tokens.length + 1) ctx (by omega)
          rw [hfp] at this
          simp at this
        | some p1 =>
          obtain ⟨ctx1, e1⟩ := p1
          obtain ⟨h1suf, _, _, _, _⟩ := flagGroupParse_state _ ctx ctx1 e1 hfp
          dsimp only
          by_cases hprog : (!ctx1.EOL && (ctx.peek).equal ctx1.peek) = true
          · rw [if_pos hprog]; rfl
          · rw [if_neg hprog]
            cases e1 with
            | some err => exact parseFinal_isSome cmds args seen sel _ ctx1
            | none =>
              have hne : ctx1.tokens ≠ ctx.tokens := by
                intro hEq
                apply hprog
                have hpk := peek_eq_of_tokens_eq hEq
                have hEOL1 : ctx1.EOL = false := by
                  rw [Ctx.EOL, hpk]
                  simpa [Ctx.EOL] using hEOL
                simp [hEOL1, hpk, Token.equal]
              have hlt := suffix_ne_length_lt h1suf hne
              exact parseNodeLoop_isSome cmds args fuel ctx1 seen sel (by omega)
      | arg =>
        dsimp only
        cases seen with
        | true => rw [if_pos rfl]; rfl
        | false =>
          rw [if_neg (by simp)]
          cases hpp : parsePositional (ctx.tokens.length + 1) cmds args ctx with
          | none =>
            have := parsePositional_isSome (ctx.tokens.length + 1) cmds args ctx (by omega)
            rw [hpp] at this
            simp at this
          | some p1 =>
            obtain ⟨ctx1, sel1, e1⟩ := p1
            obtain ⟨h1suf, _, _, _⟩ := parsePositional_state hpp
            dsimp only at h1suf
            dsimp only
            by_cases hprog : (!ctx1.EOL && (ctx.peek).equal ctx1.peek) = true
            · rw [if_pos hprog]; rfl
            · rw [if_neg hprog]
              cases e1 with
              | some err => exact parseFinal_isSome cmds args true sel1 _ ctx1
              | none =>
                have hne : ctx1.tokens ≠ ctx.tokens := by
                  intro hEq
                  apply hprog
                  have hpk := peek_eq_of_tokens_eq hEq
                  have hEOL1 : ctx1.EOL = false := by
                    rw [Ctx.EOL, hpk]
                    simpa [Ctx.EOL] using hEOL
                  simp [hEOL1, hpk, Token.equal]
                have hlt := suffix_ne_length_lt h1suf hne
                exact parseNodeLoop_isSome cmds args fuel ctx1 true sel1 (by omega)

/-- C6: the matcher terminates on every input token sequence — with the fuel
`Parse` supplies (`tokens.length + 1`, one unit per consumable token) the
per-scope matcher loop always produces a result, because every iteration
that does not consume a token stops with an unexpected-token error instead
of looping: when an iteration's step leaves the peeked token unmoved
(`Token.Equal` on the progress check, app.go:272-275), the loop returns
`unexpected <token>`. -/
theorem c6_matcher_termination :
    (∀ (flags : List FlagClause) (args : List ArgClause) (cmds : List Cmd) (ctx : Ctx),
      (parseNode (ctx.tokens.length + 1) flags args cmds ctx).isSome = true) ∧
    (∀ (env : String → String) (a a' : App) (args : List String),
      appInit env a = .ok a' →
      parseNode ((tokenize args).tokens.length + 1) a'.flags a'.args a'.commands
        (tokenize args) ≠ none) ∧
    (∀ (cmds : List Cmd) (args : List ArgClause) (fuel : Nat) (ctx ctx1 : Ctx)
      (seen : Bool) (sel : List String) (e : Option Err),
      ctx.EOL = false → ctx.peek.ty = .long ∨ ctx.peek.ty = .short →
      flagGroupParse (ctx.tokens.length + 1) ctx = some (ctx1, e) →
      ctx1.EOL = false → (ctx.peek).equal ctx1.peek = true →
      parseNodeLoop cmds args (fuel + 1) ctx seen sel =
        some (ctx1, [], some (.unexpected ctx.peek.str))) ∧
    (∀ (cmds : List Cmd) (args : List ArgClause) (fuel : Nat) (ctx ctx1 : Ctx)
      (sel sel1 : List String) (e : Option Err),
      ctx.EOL = false → ctx.peek.ty = .arg →
      parsePositional (ctx.tokens.length + 1) cmds args ctx = some (ctx1, sel1, e) →
      ctx1.EOL = false → (ctx.peek).equal ctx1.peek = true →
      parseNodeLoop cmds args (fuel + 1) ctx false sel =
        some (ctx1, [], some (.unexpected ctx.peek.str))) := by
  refine ⟨?_, ?_, ?_, ?_⟩
  · intro flags args cmds ctx
    rw [parseNode]
    exact parseNodeLoop_isSome cmds args _ (ctx.mergeFlags flags) false []
      (by simp [Ctx.mergeFlags])
  · intro env a a' args hinit
    intro hnone
    have := parseNodeLoop_isSome a'.commands a'.args
      ((tokenize args).tokens.length + 1) ((tokenize args).mergeFlags a'.flags) false []
      (by simp [Ctx.mergeFlags])
    rw [parseNode] at hnone
    rw [hnone] at this
    simp at this
  · intro cmds args fuel ctx ctx1 seen sel e hEOL hty hfp hEOL1 heq
    rw [parseNodeLoop, if_neg (by simp [hEOL])]
    dsimp only
    rcases hty with hty | hty <;>
      rw [hty] <;> dsimp only <;>
      rw [hfp] <;> dsimp only <;>
      rw [if_pos (by simp [hEOL1, heq])]
  · intro cmds args fuel ctx ctx1 sel sel1 e hEOL hty hpp hEOL1 heq
    rw [parseNodeLoop, if_neg (by simp [hEOL])]
    dsimp only
    rw [hty]
    dsimp only
    rw [if_neg (by simp), hpp]
    dsimp only
    rw [if_pos (by simp [hEOL1, heq])]

/-- A context peeking at an unknown long flag with no visible flags. -/
def c6ctx : Ctx :=
  { tokens := [⟨0, .long, "bogus"⟩, ⟨1, .eol, ""⟩], elements := [], flags := [],
    arguments := [], selectedCommand := "", sinks := [] }

/-- Witness for C6 at the concrete no-progress input `--bogus`: the unknown
flag consumes nothing, so the loop stops with `unexpected --bogus`. -/
theorem c6_matcher_termination_witness :
    parseNodeLoop [] [] 1 c6ctx false [] =
      some (c6ctx, [], some (.unexpected "--bogus")) := by
  have h := c6_matcher_termination.2.2.1 [] [] 0 c6ctx c6ctx false []
    (some (.unknownLongFlag "--bogus")) (by rfl) (Or.inl rfl) (by rfl) (by rfl) (by rfl)
  simpa using h

/-! ## C4: the returned command string and exact command matching -/

theorem setValuesAux_sel_of_ok :
    ∀ (elements : List Elem) (σ : Sinks) (lc : Option Cmd) (sel : List String),
      (setValuesAux elements σ lc sel).2.2.2.2 = none →
      (setValuesAux elements σ lc sel).2.1 = sel ++ (cmdElems elements).map Cmd.name
  | [], _, _, _, _ => by simp [setValuesAux, cmdElems]
  | .flagElem f v :: rest, σ, lc, sel, h => by
    rw [setValuesAux] at h ⊢
    cases hs : sinkSet σ f.id f.kind v with
    | none => rw [hs] at h; simp at h
    | some σ' =>
      rw [hs] at h
      dsimp only at h ⊢
      rw [setValuesAux_sel_of_ok rest σ' lc sel h]
      simp [cmdElems]
  | .argElem a v :: rest, σ, lc, sel, h => by
    rw [setValuesAux] at h ⊢
    cases hs : sinkSet σ a.id a.kind v with
    | none => rw [hs] at h; simp at h
    | some σ' =>
      rw [hs] at h
      dsimp only at h ⊢
      rw [setValuesAux_sel_of_ok rest σ' lc sel h]
      simp [cmdElems]
  | .cmdElem c :: rest, σ, lc, sel, h => by
    rw [setValuesAux] at h ⊢
    cases hv : c.validator with
    | none =>
      rw [hv] at h
      dsimp only at h ⊢
      rw [setValuesAux_sel_of_ok rest σ (some c) (sel ++ [c.name]) h]
      simp [cmdElems, hv]
    | some r =>
      cases r with
      | none =>
        rw [hv] at h
        dsimp only at h ⊢
        rw [setValuesAux_sel_of_ok rest σ (some c) (sel ++ [c.name]) h]
        simp [cmdElems, hv]
      | some msg => rw [hv] at h; simp at h

theorem setValues_sel_of_ok {elements : List Elem} {σ : Sinks}
    (h : (setValues elements σ).2.2.2 = none) :
    (setValues elements σ).2.1 = (cmdElems elements).map Cmd.name := by
  have haux := setValues_ok_aux h
  rw [setValues] at h ⊢
  rw [haux] at h ⊢
  dsimp only at h ⊢
  cases hlc : (setValuesAux elements σ none []).2.2.2.1 with
  | none =>
    dsimp only at h ⊢
    simpa using setValuesAux_sel_of_ok elements σ none [] haux
  | some c =>
    rw [hlc] at h
    dsimp only at h ⊢
    by_cases hc : c.commands.isEmpty = true
    · rw [if_neg (by simp [hc])]
      simpa using setValuesAux_sel_of_ok elements σ none [] haux
    · rw [Bool.not_eq_true] at hc
      rw [if_pos (by simp [hc])] at h
      simp at h

theorem execute_ok_command {a : App} {ctx : Ctx} {s : String}
    (h : (execute a ctx).res = .ok s) :
    s = String.intercalate " " ((cmdElems ctx.elements).map Cmd.name) := by
  rw [execute] at h
  cases h1 : (setDefaults ctx).2.2 with
  | some e => rw [h1] at h; simp at h
  | none =>
    rw [h1] at h
    dsimp only at h
    cases h2 : (setValues ctx.elements (setDefaults ctx).1).2.2.2 with
    | some e => rw [h2] at h; simp at h
    | none =>
      rw [h2] at h
      dsimp only at h
      cases h3 : (applyValidators a ctx.elements).2 with
      | some e => rw [h3] at h; simp at h
      | none =>
        rw [h3] at h
        dsimp only at h
        cases h4 : (applyActions a ctx.elements).2 with
        | some e => rw [h4] at h; simp at h
        | none =>
          rw [h4] at h
          dsimp only at h
          cases h
          rw [setValues_sel_of_ok h2]

theorem matchPhase_ok_path {env : String → String} {a a' : App}
    {args : List String} {ctx : Ctx}
    (h : matchPhase env a args = .ok (a', ctx)) :
    appInit env a = .ok a' ∧
    ∃ path, DescentPath a'.commands path ∧ cmdElems ctx.elements = path := by
  rw [matchPhase] at h
  cases hinit : appInit env a with
  | error e => rw [hinit] at h; simp at h
  | ok a0 =>
    rw [hinit] at h
    dsimp only at h
    cases hp : parseNode ((tokenize args).tokens.length + 1) a0.flags a0.args
        a0.commands (tokenize args) with
    | none => rw [hp] at h; simp at h
    | some r =>
      rw [hp] at h
      obtain ⟨ctxr, selr, er⟩ := r
      rw [parseNode] at hp
      obtain ⟨_, path, hpath, hce, _⟩ := parseNodeLoop_state a0.commands a0.args _
        ((tokenize args).mergeFlags a0.flags) false [] _ hp
      cases er with
      | some e => simp at h
      | none =>
        dsimp only at h
        cases h
        refine ⟨rfl, path, hpath, ?_⟩
        simpa [Ctx.mergeFlags, tokenize, cmdElems] using hce

/-- C4: every successful `Parse` returns the names of the selected commands
joined by single spaces, where the selected commands are exactly the command
elements recorded by the matcher, which form a descent path (each selected
command is a declared child of the previous scope, starting at the root
command set); and command-name matching during descent is exact — a
positional token whose text is not exactly a declared child-command name
makes `cmdGroup.parse` fail with a hard error carrying that token. -/
theorem c4_selected_command_string (env : String → String) (a : App)
    (args : List String) (s : String) :
    (ParseApp env a args = .ok s →
      ∃ a' ctx path, matchPhase env a args = .ok (a', ctx) ∧
        appInit env a = .ok a' ∧
        DescentPath a'.commands path ∧ cmdElems ctx.elements = path ∧
        s = String.intercalate " " (path.map Cmd.name)) ∧
    (∀ (fuel : Nat) (cmds : List Cmd) (ctx : Ctx),
      ctx.peek.ty = .arg → cmdLookup cmds ctx.peek.val = none →
      cmdGroupParse (fuel + 1) cmds ctx =
        some (ctx, [], some (.noSuchCommand ctx.peek.str))) := by
  constructor
  · intro h
    rw [ParseApp] at h
    cases hm : matchPhase env a args with
    | error e => rw [hm] at h; by_cases hh : hasHelpRaw args = true <;> simp [hh] at h
    | ok p =>
      rw [hm] at h
      obtain ⟨a', ctx⟩ := p
      dsimp only at h
      by_cases hh : ctx.elements.any isHelpElem = true
      · rw [if_pos hh] at h; simp at h
      · rw [if_neg hh] at h
        by_cases hEOL : ctx.EOL = true
        · rw [if_neg (by simp [hEOL])] at h
          cases hex : (execute a' ctx).res with
          | error e => rw [hex] at h; simp at h
          | ok s' =>
            rw [hex] at h
            cases h
            obtain ⟨hinit, path, hpath, hce⟩ := matchPhase_ok_path hm
            exact ⟨a', ctx, path, rfl, hinit, hpath, hce,
              by rw [execute_ok_command hex, hce]⟩
        · rw [if_pos (by simp [hEOL])] at h
          simp at h
  · intro fuel cmds ctx hty hlook
    rw [cmdGroupParse]
    dsimp only
    rw [if_neg (by simp [hty]), if_neg (by simp [hty]), hlook]

/-- A two-level command grammar: `a` containing `b` which owns flag `x`. -/
def c4cmdB : Cmd := .mk 10 "b" [strFlag 11 "x"] [] [] none none

/-- The parent command of `c4cmdB`. -/
def c4cmdA : Cmd := .mk 9 "a" [] [] [c4cmdB] none none

/-- An application with the nested commands `a b`. -/
def c4app : App := { newApp "t" "" with commands := [c4cmdA] }

/-- A context peeking at the positional token `bad`. -/
def c4ctx : Ctx :=
  { tokens := [⟨0, .arg, "bad"⟩, ⟨1, .eol, ""⟩], elements := [], flags := [],
    arguments := [], selectedCommand := "", sinks := [] }

/-- Witness for C4 at the concrete parse `a b --x=1` (selection path `a b`)
and a concrete unknown-command lookup. -/
theorem c4_selected_command_string_witness :
    (∃ a' ctx path, matchPhase env0 c4app ["a", "b", "--x=1"] = .ok (a', ctx) ∧
      appInit env0 c4app = .ok a' ∧
      DescentPath a'.commands path ∧ cmdElems ctx.elements = path ∧
      "a b" = String.intercalate " " (path.map Cmd.name)) ∧
    cmdGroupParse 1 [c4cmdA] c4ctx =
      some (c4ctx, [], some (.noSuchCommand "bad")) := by
  constructor
  · exact (c4_selected_command_string env0 c4app ["a", "b", "--x=1"] "a b").1 (by rfl)
  · exact (c4_selected_command_string env0 c4app [] "").2 0 [c4cmdA] c4ctx
      (by rfl) (by rfl)

/-! ## C9: duplicate declarations are detected by the build pass -/

/-- No flag of this command (or, recursively, of a descendant) collides with
any ancestor scope's flag group, by long name or by short alias. -/
inductive DupFree : List (List FlagClause) → Cmd → Prop
  | intro (groups : List (List FlagClause)) (c : Cmd)
      (hf : ∀ f ∈ c.flags, ∀ g ∈ groups, lookupLong g f.name = none ∧
        (∀ ch, f.shorthand = some ch → lookupShort g (String.mk [ch]) = none))
      (hs : ∀ d ∈ c.commands, DupFree (groups ++ [c.flags]) d) : DupFree groups c

/-- Sibling command names and per-scope argument names are duplicate-free,
recursively. -/
inductive NamesOk : Cmd → Prop
  | intro (c : Cmd) (ha : (c.args.map ArgClause.name).Nodup)
      (hc : (c.commands.map Cmd.name).Nodup)
      (hs : ∀ d ∈ c.commands, NamesOk d) : NamesOk c

theorem argGroupInitAux_ok_names :
    ∀ (args : List ArgClause) (i r : Nat) (pm : Bool) (seen : List String)
      (l : List ArgClause), argGroupInitAux args i r pm seen = .ok l →
      (args.map ArgClause.name).Nodup ∧ ∀ a ∈ args, a.name ∉ seen
  | [], _, _, _, _, _, _ => by simp
  | arg :: rest, i, r, pm, seen, l, h => by
    rw [argGroupInitAux] at h
    by_cases hpm : pm = true
    · rw [hpm] at h; exact absurd h (by simp)
    · rw [Bool.not_eq_true] at hpm
      rw [hpm] at h
      simp only [Bool.false_eq_true, if_false] at h
      by_cases hseen : seen.contains arg.name = true
      · rw [if_pos hseen] at h; exact absurd h (by simp)
      · rw [if_neg hseen] at h
        by_cases hri : (arg.required && decide (r ≠ i)) = true
        · rw [if_pos hri] at h; exact absurd h (by simp)
        · rw [if_neg hri] at h
          cases hinit : argInit arg with
          | error e => rw [hinit] at h; exact absurd h (by simp)
          | ok a0 =>
            rw [hinit] at h
            cases hrest : argGroupInitAux rest (i + 1)
                (if arg.required = true then r + 1 else r) arg.consumesRemainder
                (arg.name :: seen) with
            | error e => rw [hrest] at h; exact absurd h (by simp [Except.map])
            | ok rest' =>
              obtain ⟨hnd, hns⟩ := argGroupInitAux_ok_names rest _ _ _ _ _ hrest
              rw [List.contains_eq_any_beq] at hseen
              simp only [List.any_eq_true, Bool.not_eq_true, beq_iff_eq] at hseen
              push_neg at hseen
              refine ⟨?_, ?_⟩
              · rw [List.map_cons, List.nodup_cons]
                refine ⟨?_, hnd⟩
                intro hmem
                obtain ⟨b, hb, hbn⟩ := List.mem_map.mp hmem
                have := hns b hb
                simp [hbn] at this
              · intro b hb
                rcases List.mem_cons.mp hb with rfl | hmem
                · intro hc
                  exact hseen b.name hc rfl
                · have := hns b hmem
                  intro hc
                  exact this (List.mem_cons_of_mem _ hc)

theorem cmdGroupInitAux_ok_names {env : String → String} :
    ∀ (cmds : List Cmd) (seen : List String) (l : List Cmd),
      cmdGroupInitAux env cmds seen = .ok l →
      (cmds.map Cmd.name).Nodup ∧ ∀ c ∈ cmds, c.name ∉ seen
  | [], _, _, _ => by simp
  | c :: rest, seen, l, h => by
    rw [cmdGroupInitAux] at h
    by_cases hseen : seen.contains c.name = true
    · rw [if_pos hseen] at h; exact absurd h (by simp)
    · rw [if_neg hseen] at h
      cases hc : cmdInit env c with
      | error e => rw [hc] at h; exact absurd h (by simp)
      | ok c' =>
        rw [hc] at h
        cases hrest : cmdGroupInitAux env rest (c.name :: seen) with
        | error e => rw [hrest] at h; exact absurd h (by simp [Except.map])
        | ok rest' =>
          obtain ⟨hnd, hns⟩ := cmdGroupInitAux_ok_names rest _ _ hrest
          rw [List.contains_eq_any_beq] at hseen
          simp only [List.any_eq_true, Bool.not_eq_true, beq_iff_eq] at hseen
          push_neg at hseen
          refine ⟨?_, ?_⟩
          · rw [List.map_cons, List.nodup_cons]
            refine ⟨?_, hnd⟩
            intro hmem
            obtain ⟨b, hb, hbn⟩ := List.mem_map.mp hmem
            have := hns b hb
            simp [hbn] at this
          · intro b hb
            rcases List.mem_cons.mp hb with rfl | hmem
            · intro hcn
              exact hseen b.name hcn rfl
            · have := hns b hmem
              intro hcn
              exact this (List.mem_cons_of_mem _ hcn)

theorem cmdInit_ok_namesOk (env : String → String) :
    ∀ (n : Nat) (c : Cmd), sizeOf c ≤ n → ∀ c', cmdInit env c = .ok c' →
      NamesOk c := by
  intro n
  induction n with
  | zero =>
    intro c hle
    exfalso
    cases c
    simp at hle
  | succ n ih =>
    intro c hle c' h
    cases c with
    | mk ci cn fs as cs val act =>
      rw [cmdInit] at h
      cases hf : flagGroupInit env fs with
      | error e => rw [hf] at h; exact absurd h (by simp)
      | ok fs' =>
        rw [hf] at h
        dsimp only at h
        by_cases hmix : (!as.isEmpty && !cs.isEmpty) = true
        · rw [if_pos hmix] at h; exact absurd h (by simp)
        · rw [if_neg hmix] at h
          cases ha : argGroupInit as with
          | error e => rw [ha] at h; exact absurd h (by simp)
          | ok as' =>
            rw [ha] at h
            dsimp only at h
            cases hc : cmdGroupInitAux env cs [] with
            | error e => rw [hc] at h; exact absurd h (by simp)
            | ok cs' =>
              refine NamesOk.intro _ ?_ ?_ ?_
              · exact (argGroupInitAux_ok_names as 0 0 false [] as' ha).1
              · exact (cmdGroupInitAux_ok_names cs [] cs' hc).1
              · intro d hd
                simp only [Cmd.commands] at hd
                obtain ⟨d', hd'⟩ := cmdGroupInitAux_ok_mem hc d hd
                have hszd : sizeOf d < sizeOf cs := List.sizeOf_lt_of_mem hd
                have hsz : sizeOf d ≤ n := by simp at hle; omega
                exact ih d hsz d' hd'

theorem dupCheckFlag_none {group : List FlagClause} {f : FlagClause}
    (h : dupCheckFlag group f = none) :
    lookupLong group f.name = none ∧
    (∀ ch, f.shorthand = some ch → lookupShort group (String.mk [ch]) = none) := by
  cases hsh : f.shorthand with
  | none =>
    rw [dupCheckFlag, hsh] at h
    dsimp only at h
    by_cases hl : (lookupLong group f.name).isSome = true
    · rw [if_pos hl] at h; cases h
    · refine ⟨Option.not_isSome_iff_eq_none.mp (by simpa using hl), ?_⟩
      intro ch hch
      cases hch
  | some ch =>
    rw [dupCheckFlag, hsh] at h
    dsimp only at h
    by_cases hs : (lookupShort group (String.mk [ch])).isSome = true
    · rw [if_pos hs] at h; cases h
    · rw [if_neg hs] at h
      by_cases hl : (lookupLong group f.name).isSome = true
      · rw [if_pos hl] at h; cases h
      · refine ⟨Option.not_isSome_iff_eq_none.mp (by simpa using hl), ?_⟩
        intro ch' hch
        cases hch
        exact Option.not_isSome_iff_eq_none.mp (by simpa using hs)

theorem dupCheckGroup_none :
    ∀ (fs : List FlagClause) (group : List FlagClause),
      dupCheckGroup fs group = none → ∀ f ∈ fs, dupCheckFlag group f = none
  | [], _, _, f, hf => by simp at hf
  | g :: rest, group, h, f, hf => by
    rw [dupCheckGroup] at h
    cases hg : dupCheckFlag group g with
    | some e => rw [hg] at h; cases h
    | none =>
      rw [hg] at h
      rcases List.mem_cons.mp hf with rfl | hmem
      · exact hg
      · exact dupCheckGroup_none rest group h f hmem

theorem dupCheckGroups_none :
    ∀ (fs : List FlagClause) (groups : List (List FlagClause)),
      dupCheckGroups fs groups = none → ∀ g ∈ groups, dupCheckGroup fs g = none
  | _, [], _, g, hg => by simp at hg
  | fs, g0 :: rest, h, g, hg => by
    rw [dupCheckGroups] at h
    cases hg0 : dupCheckGroup fs g0 with
    | some e => rw [hg0] at h; cases h
    | none =>
      rw [hg0] at h
      rcases List.mem_cons.mp hg with rfl | hmem
      · exact hg0
      · exact dupCheckGroups_none fs rest h g hmem

theorem checkDupFlagsList_ok_mem :
    ∀ (l : List Cmd) (groups : List (List FlagClause)),
      checkDupFlagsList l groups = .ok () → ∀ c ∈ l, checkDupFlags c groups = .ok ()
  | [], _, _, c, hc => by simp at hc
  | d :: rest, groups, h, c, hc => by
    rw [checkDupFlagsList] at h
    cases hd : checkDupFlags d groups with
    | error e => rw [hd] at h; cases h
    | ok u =>
      rw [hd] at h
      rcases List.mem_cons.mp hc with rfl | hmem
      · cases u; exact hd
      · exact checkDupFlagsList_ok_mem rest groups h c hmem

theorem checkDupFlags_ok_dupFree :
    ∀ (n : Nat) (c : Cmd), sizeOf c ≤ n → ∀ groups,
      checkDupFlags c groups = .ok () → DupFree groups c := by
  intro n
  induction n with
  | zero =>
    intro c hle
    exfalso
    cases c
    simp at hle
  | succ n ih =>
    intro c hle groups h
    cases c with
    | mk ci cn fs as cs val act =>
      rw [checkDupFlags] at h
      cases hd : dupCheckGroups fs groups with
      | some e => rw [hd] at h; cases h
      | none =>
        rw [hd] at h
        refine DupFree.intro _ _ ?_ ?_
        · intro f hf g hg
          exact dupCheckFlag_none
            (dupCheckGroup_none fs g (dupCheckGroups_none fs groups hd g hg) f hf)
        · intro d hdm
          simp only [Cmd.commands] at hdm
          have hszd : sizeOf d < sizeOf cs := List.sizeOf_lt_of_mem hdm
          have hsz : sizeOf d ≤ n := by simp at hle; omega
          exact ih d hsz _ (checkDupFlagsList_ok_mem cs _ h d hdm)

/-- C9: duplicate declaration names are detected by the build/validation pass
before any parsing — a successful init implies the root argument names, the
sibling command names at every level and every scope's argument names are
duplicate-free, and no command's flag collides (by long name or short alias)
with any ancestor scope's flag group in the initialized grammar; and when
init fails, every parse attempt fails with that build error (or the explicit
`--help` terminate path) regardless of the input. -/
theorem c9_duplicates_build_time (env : String → String) (a a0 : App) (e : Err) :
    (appInit env a = .ok a0 →
      (a.args.map ArgClause.name).Nodup ∧
      (a.commands.map Cmd.name).Nodup ∧
      (∀ c ∈ a.commands, NamesOk c) ∧
      (∀ c ∈ a0.commands, DupFree [a0.flags] c)) ∧
    (appInit env a = .error e →
      ∀ args, ParseApp env a args = if hasHelpRaw args then .terminated 1 else .err e) := by
  constructor
  · intro h
    obtain ⟨flags', cmds1, args', cmds2, hf, hc, ha, hr, hd, ha0⟩ := appInit_ok_parts h
    refine ⟨(argGroupInitAux_ok_names a.args 0 0 false [] args' ha).1,
      (cmdGroupInitAux_ok_names a.commands [] cmds1 hc).1, ?_, ?_⟩
    · intro c hcm
      obtain ⟨c', hcc⟩ := cmdGroupInitAux_ok_mem hc c hcm
      exact cmdInit_ok_namesOk env (sizeOf c) c le_rfl c' hcc
    · intro c hcm
      rw [ha0]
      have hcm' : c ∈ cmds2 := by rw [ha0] at hcm; exact hcm
      exact checkDupFlags_ok_dupFree (sizeOf c) c le_rfl [flags']
        (checkDupFlagsList_ok_mem cmds2 [flags'] hd c hcm')
  · intro h args
    exact parseApp_of_init_error h args

/-- An application with the long flag `verbose` declared both at the root and
inside the command `d`. -/
def c9dupApp : App :=
  { newApp "t" "" with
    flags := (newApp "t" "").flags ++ [boolFlag 1 "verbose"],
    commands := [.mk 30 "d" [boolFlag 31 "verbose"] [] [] none none] }

/-- Witness for C9: the duplicate-free grammar `c4app` passes the build
checks, and the duplicated `verbose` flag is rejected at build time with the
error naming it, failing every parse attempt. -/
theorem c9_duplicates_build_time_witness :
    ((c4app.args.map ArgClause.name).Nodup ∧
      (c4app.commands.map Cmd.name).Nodup ∧
      (∀ c ∈ c4app.commands, NamesOk c) ∧
      (∀ c ∈ c4app.commands, DupFree [c4app.flags] c)) ∧
    ParseApp env0 c9dupApp ["z"] = .err (.duplicateLongFlag "verbose") := by
  constructor
  · exact (c9_duplicates_build_time env0 c4app c4app .outOfFuel).1 (by rfl)
  · have h := (c9_duplicates_build_time env0 c9dupApp c9dupApp
      (.duplicateLongFlag "verbose")).2 (by rfl) ["z"]
    simpa [hasHelpRaw] using h

end Kingpin
